import Mathlib

/-!
Verification of the `agi-tools` compiler (`src/src/compile.ts` and its sibling
variant in `src/unnamed/part_001`) against its natural-language specification.

The TypeScript source is shallowly embedded: JavaScript numbers are modelled as
`Int` with the 32-bit coercions (`| 0`, `Math.imul`, `&`, `>>`) made explicit,
JavaScript `Map`s as ordered association lists, mutable loops as recursive
functions (fuel-indexed where the source loop is not structurally terminating),
and thrown exceptions as `Except` errors.
-/

namespace Agi

/-! ### JavaScript 32-bit number coercions

The source coerces with `| 0` (ToInt32), `Math.imul`, and patterns like
`n & 0xff` and `(n >> 8) & 0xff` on values already in int32 range. -/

/-- JS `ToInt32`: wrap an integer to two's-complement 32-bit signed range. -/
def toInt32 (n : Int) : Int := (n + 2147483648).emod 4294967296 - 2147483648

/-- JS `ToUint32`, as a natural number (used for shift counts). -/
def toUint32 (n : Int) : Nat := (n.emod 4294967296).toNat

/-- JS `n & 0xff`: ToInt32 then take the low 8 bits of the two's complement. -/
def jsAnd255 (n : Int) : Int := (toInt32 n).emod 256

/-- JS `(n >> 8) & 0xff`: arithmetic shift right by 8 (floor division), mask. -/
def jsShr8And255 (n : Int) : Int := ((toInt32 n).fdiv 256).emod 256

/-- JS `(n >> 16) & 0xff`: arithmetic shift right by 16, mask (the form the
source uses in `pushStatement`'s uint16 case). -/
def jsShr16And255 (n : Int) : Int := ((toInt32 n).fdiv 65536).emod 256

/-- JS `Math.imul`: 32-bit integer multiplication. -/
def jsImul (a b : Int) : Int := toInt32 (a * b)

/-! ### Ordered association lists modelling JavaScript `Map`

JS `Map` preserves insertion order; `set` on an existing key updates in place,
`set` on a new key appends; `delete` removes the key.  Keys are unique. -/

def alGet {α : Type} (m : List (String × α)) (k : String) : Option α :=
  (m.find? (fun p => p.1 == k)).map (fun p => p.2)

def alHas {α : Type} (m : List (String × α)) (k : String) : Bool :=
  (alGet m k).isSome

def alSet {α : Type} (m : List (String × α)) (k : String) (v : α) :
    List (String × α) :=
  match m with
  | [] => [(k, v)]
  | (k', v') :: rest =>
    if k' == k then (k, v) :: rest else (k', v') :: alSet rest k v

def alRemove {α : Type} (m : List (String × α)) (k : String) :
    List (String × α) :=
  match m with
  | [] => []
  | (k', v') :: rest =>
    if k' == k then rest else (k', v') :: alRemove rest k

/-! ### Token classification and literal decoding (compile.ts lines 74-94)

The source classifies tokens with small regexes and decodes literals with
`parseInt`/`Number` and an escape table; these are ported character-wise. -/

/-- `/^[a-z_]/i.test(s || '')`: first character is a letter or underscore. -/
def isKeywordToken (s : String) : Bool :=
  match s.data with
  | c :: _ => c.isAlpha || c == '_'
  | [] => false

/-- `s[0] === '"'`. -/
def isStringLiteralToken (s : String) : Bool :=
  match s.data with
  | c :: _ => c == '"'
  | [] => false

/-- `s[0] === "'"`. -/
def isCharLiteralToken (s : String) : Bool :=
  match s.data with
  | c :: _ => c == '\''
  | [] => false

/-- `/^\.?[0-9]/.test(s || '')`: a digit, optionally preceded by a dot. -/
def isNumberToken (s : String) : Bool :=
  match s.data with
  | '.' :: c :: _ => c.isDigit
  | c :: _ => c.isDigit
  | [] => false

/-- The `ESCAPES` table: `\\X` escapes map through it, any other `\\c`
drops the backslash (`esc.slice(1)`), and a bare `[` means newline. -/
def escapeChar (c : Char) : Char :=
  match c with
  | 'a' => '\x07'
  | 'b' => '\x08'
  | 'e' => '\x1B'
  | 'f' => '\x0C'
  | 'n' => '\x0A'
  | 'r' => '\x0D'
  | 't' => '\x09'
  | 'v' => '\x0B'
  | c => c

/-- `.replace(/\\.|\[/g, esc => ESCAPES[esc] || esc.slice(1))` over the
characters: a trailing lone backslash matches neither alternative and is
kept. -/
def decodeEscapes : List Char → List Char
  | [] => []
  | '\\' :: c :: rest => escapeChar c :: decodeEscapes rest
  | '\\' :: [] => ['\\']
  | '[' :: rest => '\x0A' :: decodeEscapes rest
  | c :: rest => c :: decodeEscapes rest

/-- `decodeStringLiteral`: strip the quotes (`slice(1, -1)`) and decode
escapes. -/
def decodeStringLiteral (s : String) : String :=
  ⟨decodeEscapes (s.data.drop 1).dropLast⟩

/-- `decodeCharLiteral`: as above, then `.codePointAt(0) || 0`. -/
def decodeCharLiteral (s : String) : Int :=
  match decodeEscapes (s.data.drop 1).dropLast with
  | c :: _ => (c.toNat : Int)
  | [] => 0

def digitValue (c : Char) : Nat := c.toNat - '0'.toNat

/-- Is `c` a digit of the given radix (8, 10 or 16; case-insensitive for
hex)?  Returns its value when so. -/
def radixDigit (radix : Nat) (c : Char) : Option Nat :=
  if c.isDigit ∧ digitValue c < radix then some (digitValue c)
  else if radix == 16 ∧ 'a' ≤ c ∧ c ≤ 'f' then some (c.toNat - 'a'.toNat + 10)
  else if radix == 16 ∧ 'A' ≤ c ∧ c ≤ 'F' then some (c.toNat - 'A'.toNat + 10)
  else none

/-- `Number.parseInt` body: value of the longest digit prefix, `NaN` (none)
when there is none. -/
def parseIntPrefix (radix : Nat) (cs : List Char) : Option Nat :=
  let rec go (acc : Nat) (seen : Bool) : List Char → Option Nat
    | [] => if seen then some acc else none
    | c :: rest =>
      match radixDigit radix c with
      | some d => go (acc * radix + d) true rest
      | none => if seen then some acc else none
  go 0 false cs

/-- `decodeIntegerLiteral`: `/^0[0-9]+$/` selects `parseInt(s, 8)` (which
stops at the first non-octal digit), otherwise `/^[0-9]+|^0x[0-9a-f]+$/i`
admits any token starting with a digit, decoded by `parseInt(s)` with its
automatic hex detection; `none` models `NaN`. -/
def decodeIntegerLiteral (s : String) : Option Int :=
  let cs := s.data
  match cs with
  | [] => none
  | c :: rest =>
    if c == '0' ∧ rest ≠ [] ∧ rest.all (fun d => d.isDigit) then
      (parseIntPrefix 8 cs).map (fun n => (n : Int))
    else if c.isDigit then
      match rest with
      | x :: more =>
        if c == '0' ∧ (x == 'x' ∨ x == 'X') then
          (parseIntPrefix 16 more).map (fun n => (n : Int))
        else (parseIntPrefix 10 cs).map (fun n => (n : Int))
      | [] => (parseIntPrefix 10 cs).map (fun n => (n : Int))
    else none

/-! ### JS `Number(string)` conversion

The directive evaluator turns a number token into a value with
`+step.value | 0`.  `Number()` accepts decimal floats with an optional
exponent, and `0x`/`0o`/`0b` radix literals; anything else is `NaN`, which
`| 0` sends to 0.  (The source tokens carry no sign or whitespace.  Values
are modelled exactly; the double-precision rounding JS would apply to numbers
beyond 2^53 is not modelled, and no claim depends on it.) -/

/-- Parse a full all-digits run; none on empty or on a non-digit. -/
def parseAllDigits (radix : Nat) (cs : List Char) : Option Nat :=
  let rec go (acc : Nat) (seen : Bool) : List Char → Option Nat
    | [] => if seen then some acc else none
    | c :: rest =>
      match radixDigit radix c with
      | some d => go (acc * radix + d) true rest
      | none => none
  go 0 false cs

/-- Decimal float syntax `digits [. digits] [e[+|-]digits]`, truncated toward
zero (the value is non-negative, so truncation is floor). -/
def parseDecimalTrunc (cs : List Char) : Option Int :=
  let intPart := cs.takeWhile (fun c => c.isDigit)
  let rest1 := cs.drop intPart.length
  let p : List Char × List Char :=
    match rest1 with
    | '.' :: more =>
      let f := more.takeWhile (fun c => c.isDigit)
      (f, more.drop f.length)
    | _ => ([], rest1)
  let fracPart := p.1
  let rest2 := p.2
  if intPart.isEmpty ∧ fracPart.isEmpty then none else
  let mantissa := (parseAllDigits 10 (intPart ++ fracPart)).getD 0
  let fracLen := fracPart.length
  match rest2 with
  | [] => some ((mantissa / 10 ^ fracLen : Nat) : Int)
  | e :: more =>
    if e == 'e' ∨ e == 'E' then
      let (neg, digitsE) :=
        match more with
        | '+' :: d => (false, d)
        | '-' :: d => (true, d)
        | d => (false, d)
      match parseAllDigits 10 digitsE with
      | none => none
      | some ex =>
        if neg then
          some ((mantissa / 10 ^ (fracLen + ex) : Nat) : Int)
        else if ex ≥ fracLen then
          some ((mantissa * 10 ^ (ex - fracLen) : Nat) : Int)
        else
          some ((mantissa / 10 ^ (fracLen - ex) : Nat) : Int)
    else none

/-- JS `+s` for a token, truncated toward zero; `none` models `NaN`. -/
def jsNumberTrunc (s : String) : Option Int :=
  match s.data with
  | '0' :: x :: more =>
    if x == 'x' ∨ x == 'X' then (parseAllDigits 16 more).map (fun n => (n : Int))
    else if x == 'o' ∨ x == 'O' then
      (parseAllDigits 8 more).map (fun n => (n : Int))
    else if x == 'b' ∨ x == 'B' then
      (parseAllDigits 2 more).map (fun n => (n : Int))
    else parseDecimalTrunc s.data
  | cs => parseDecimalTrunc cs

/-- `+step.value | 0`: convert, with `NaN | 0 = 0`, then wrap to int32. -/
def jsNumberOr0 (s : String) : Int := toInt32 ((jsNumberTrunc s).getD 0)

/-! ### Errors

`LineSyntaxError` carries a file name and 1-based line number; plain `Error`s
carry only a message.  `fuel` is the out-of-fuel sentinel of the embedding (it
has no counterpart in the source) and `io` marks the one directive
(`#include`) whose effect is an external file read, out of scope here.
`nonfinite` marks the places where the source computes a number with no
integer counterpart (`NaN` from a malformed integer literal, `Infinity`/`NaN`
from a constant-folded division by zero) and carries it onward as an IEEE
value; the embedding stops there instead. -/

inductive CompErr where
  | line (fileName : String) (lineNumber : Nat) (message : String)
  | plain (message : String)
  | fuel
  | io (what : String)
  | nonfinite
deriving Repr, DecidableEq

instance {ε α : Type} [DecidableEq ε] [DecidableEq α] :
    DecidableEq (Except ε α) := fun a b =>
  match a, b with
  | .error e₁, .error e₂ => decidable_of_iff (e₁ = e₂) (by simp)
  | .ok v₁, .ok v₂ => decidable_of_iff (v₁ = v₂) (by simp)
  | .error _, .ok _ => isFalse (by simp)
  | .ok _, .error _ => isFalse (by simp)

/-! ### The expression and statement AST (compile.ts lines 96-193) -/

inductive Expression where
  | call (func : String) (params : List Expression)
  | and (operands : List Expression)
  | or (operands : List Expression)
  | not (operand : Expression)
  | literal (lit : String)
  | uint8 (meaning : String) (value : Int)
  | uint16 (meaning : String) (value : Int)
  | math (operator : String) (lhs rhs : Expression)
  | conditional (condition thenValue elseValue : Expression)
deriving Repr

/-- The `type` tag of an expression node, as the source's strings. -/
def Expression.typeName : Expression → String
  | .call _ _ => "call"
  | .and _ => "and"
  | .or _ => "or"
  | .not _ => "not"
  | .literal _ => "literal"
  | .uint8 _ _ => "uint8"
  | .uint16 _ _ => "uint16"
  | .math _ _ _ => "math"
  | .conditional _ _ _ => "conditional"

inductive Statement where
  | call (func : String) (params : List Expression)
  | label (label : String)
  | goto (label : String)
  | ifS (condition : Expression) (thenDo : Statement) (elseDo : Option Statement)
  | whileS (condition : Expression) (doThis : Statement)
  | empty
  | block (body : List Statement)
  | doS (body : Statement) (condition : Expression)
deriving Repr

/-! ### The external command table (§6 of the spec)

The command-table collaborator (`./commands` in the source imports) is not
under `src/`; its shape is modelled from the spec: per command name, an opcode
number and either an ordered list of parameter kinds or a variable-arity
marker. -/

inductive ParamsSpec where
  | fixed (kinds : List String)
  | vararg
deriving Repr, DecidableEq

structure CommandDef where
  name : String
  code : Nat
  params : ParamsSpec
deriving Repr, DecidableEq

structure Ctx where
  actionCommandsByName : List (String × CommandDef)
  testCommandsByName : List (String × CommandDef)
deriving Repr, DecidableEq

/-! ### Code generator (compile.ts lines 1665-1866) -/

/-- Code generator state: the byte buffer (`buf`), resolved label offsets
(`labelPos`), labels referenced by some `goto` but not yet defined
(`pendingLabels`, mirroring the keys of `labelListeners` in first-reference
order), and the recorded forward patches (`patches`, mirroring the `complete`
promise list: the `basePos` value captured by each unresolved goto, with its
label). -/
structure CGState where
  buf : List Int
  labelPos : List (String × Nat)
  pendingLabels : List String
  patches : List (Nat × String)
deriving Repr, DecidableEq

def CGState.init : CGState := ⟨[], [], [], []⟩

/-- Parameter emission inside a condition (`pushCondition2`'s `for` loop over
`params`): uint8 pushes the raw value, uint16 pushes low byte then
`(value >> 8) & 0xff`; other node kinds are silently skipped (the source
`switch` has no default there). -/
def pushCondParams (buf : List Int) : List Expression → List Int
  | [] => buf
  | .uint8 _ v :: rest => pushCondParams (buf ++ [v]) rest
  | .uint16 _ v :: rest =>
    pushCondParams (buf ++ [jsAnd255 v, jsShr8And255 v]) rest
  | _ :: rest => pushCondParams buf rest

/-- Parameter emission inside an action call (`pushStatement`'s `case 'call'`
loop): uint8 pushes the raw value; uint16 pushes `value & 0xff` then
`(value >> 16) & 0xff` (sic: the source shifts by 16 here, unlike
`pushCondition2`); any other node kind throws. -/
def pushStmtParams (buf : List Int) : List Expression → Except CompErr (List Int)
  | [] => .ok buf
  | .uint8 _ v :: rest => pushStmtParams (buf ++ [v]) rest
  | .uint16 _ v :: rest =>
    pushStmtParams (buf ++ [jsAnd255 v, jsShr16And255 v]) rest
  | p :: _ => .error (.plain ("unexpected param type: " ++ p.typeName))

mutual

/-- `pushCondition2(expr, ctx)`: emit a boolean condition into the buffer.
`And` groups delimit with 0xFF, `Or` groups with 0xFC, both omitted when the
surrounding context is the same kind; `Not` prefixes 0xFD; a `call` leaf emits
the test opcode, an argument-count byte when variable-arity, then its encoded
parameters; any other node kind throws.  The `fuel` argument only makes the
recursion structural (any value at least the expression depth behaves
identically); the source recursion is plainly bounded by the tree. -/
def pushCondition2 (c : Ctx) (fuel : Nat) (expr : Expression)
    (ctxKind : String) (buf : List Int) : Except CompErr (List Int) :=
  match fuel with
  | 0 => .error .fuel
  | fuel + 1 =>
    match expr with
    | .and ops => do
      let buf := if ctxKind != "and" then buf ++ [0xFF] else buf
      let buf ← pushCondList c fuel ops "and" buf
      pure (if ctxKind != "and" then buf ++ [0xFF] else buf)
    | .or ops => do
      let buf := if ctxKind != "or" then buf ++ [0xFC] else buf
      let buf ← pushCondList c fuel ops "or" buf
      pure (if ctxKind != "or" then buf ++ [0xFC] else buf)
    | .not op => pushCondition2 c fuel op "not" (buf ++ [0xFD])
    | .call func params =>
      match alGet c.testCommandsByName func with
      | none => .error (.plain ("unknown test command: " ++ func))
      | some cmd =>
        let buf := buf ++ [(cmd.code : Int)]
        match cmd.params with
        | .vararg =>
          if params.length > 255 then
            .error (.plain ("too many arguments to " ++ cmd.name ++ "()"))
          else
            .ok (pushCondParams (buf ++ [(params.length : Int)]) params)
        | .fixed _ => .ok (pushCondParams buf params)
    | e => .error (.plain ("unexpected condition type: " ++ e.typeName))

def pushCondList (c : Ctx) (fuel : Nat) (ops : List Expression)
    (ctxKind : String) (buf : List Int) : Except CompErr (List Int) :=
  match fuel with
  | 0 => .error .fuel
  | fuel + 1 =>
    match ops with
    | [] => .ok buf
    | e :: rest => do
      let buf ← pushCondition2 c fuel e ctxKind buf
      pushCondList c fuel rest ctxKind buf

end

/-- `pushCondition`: the top-level condition wrapper, always an 0xFF pair. -/
def pushCondition (c : Ctx) (fuel : Nat) (expr : Expression)
    (buf : List Int) : Except CompErr (List Int) := do
  let buf ← pushCondition2 c fuel expr "and" (buf ++ [0xff])
  pure (buf ++ [0xff])

/-- Patch the two little-endian bytes of a relative jump at
`jumpFrom-2`/`jumpFrom-1` (the source's `buf[jumpFrom1-2] = relJump & 0xff;
buf[jumpFrom1-1] = (relJump >> 8) & 0xff`). -/
def patchRel (buf : List Int) (jumpFrom : Nat) (relJump : Int) : List Int :=
  (buf.set (jumpFrom - 2) (jsAnd255 relJump)).set (jumpFrom - 1)
    (jsShr8And255 relJump)

mutual

/-- `pushStatement`: depth-first emission of one statement
(compile.ts lines 1739-1858).  The source resolves forward `goto`s through
per-label promises whose `.then` patch callbacks all run at
`await Promise.all(complete)` after emission; the embedding records the same
`(basePos, label)` pairs in `patches` and applies them after emission
(`applyPatches` below), which yields the same final buffer.  `fuel` only makes
the recursion structural; any value at least the statement depth behaves
identically. -/
def pushStatement (c : Ctx) (fuel : Nat) (statement : Statement)
    (st : CGState) : Except CompErr CGState :=
  match fuel with
  | 0 => .error .fuel
  | fuel + 1 =>
    match statement with
    | .block body => pushStmtList c fuel body st
    | .empty => .ok st
    | .goto label =>
      let basePos := st.buf.length + 3
      match alGet st.labelPos label with
      | some n =>
        let relPos : Int := (n : Int) - basePos
        .ok { st with
              buf := st.buf ++ [0xfe, jsAnd255 relPos, jsShr8And255 relPos] }
      | none =>
        .ok { st with
              buf := st.buf ++ [0xfe, 0, 0],
              pendingLabels :=
                if st.pendingLabels.contains label then st.pendingLabels
                else st.pendingLabels ++ [label],
              patches := st.patches ++ [(basePos, label)] }
    | .label label =>
      if alHas st.labelPos label then
        .error (.plain ("multiple jump labels named " ++ label))
      else
        .ok { st with
              labelPos := alSet st.labelPos label st.buf.length,
              pendingLabels := st.pendingLabels.erase label }
    | .call func params =>
      match alGet c.actionCommandsByName func with
      | none => .error (.plain ("unknown command: " ++ func))
      | some cmd => do
        let buf ← pushStmtParams (st.buf ++ [(cmd.code : Int)]) params
        pure { st with buf := buf }
    | .ifS condition thenDo elseDo => do
      let buf ← pushCondition c fuel condition st.buf
      let buf := buf ++ [0, 0]
      let jumpFrom1 := buf.length
      let st ← pushStatement c fuel thenDo { st with buf := buf }
      match elseDo with
      | some elseS =>
        let st := { st with buf := st.buf ++ [0xFE, 0, 0] }
        let jumpFrom2 : Nat := st.buf.length
        let relJump : Int := (st.buf.length : Int) - jumpFrom1
        let st := { st with buf := patchRel st.buf jumpFrom1 relJump }
        let st ← pushStatement c fuel elseS st
        let relJump2 : Int := (st.buf.length : Int) - jumpFrom2
        pure { st with buf := patchRel st.buf jumpFrom2 relJump2 }
      | none =>
        let relJump : Int := (st.buf.length : Int) - jumpFrom1
        pure { st with buf := patchRel st.buf jumpFrom1 relJump }
    | .whileS condition doThis => do
      let backJumpTo := st.buf.length
      let buf ← pushCondition c fuel condition st.buf
      let buf := buf ++ [0, 0]
      let forewardJumpFrom := buf.length
      let st ← pushStatement c fuel doThis { st with buf := buf }
      let relBackJump : Int := (backJumpTo : Int) - (st.buf.length + 3)
      let st := { st with
                  buf := st.buf ++
                    [0xfe, jsAnd255 relBackJump, jsShr8And255 relBackJump] }
      let relJump2 : Int := (st.buf.length : Int) - forewardJumpFrom
      pure { st with buf := patchRel st.buf forewardJumpFrom relJump2 }
    | .doS body condition => do
      let backJumpPos := st.buf.length
      let st ← pushStatement c fuel body st
      let buf ← pushCondition c fuel condition st.buf
      let buf := buf ++ [0x03, 0x00]
      let relBackJump : Int := (backJumpPos : Int) - (buf.length + 3)
      pure { st with
             buf := buf ++
               [0xfe, jsAnd255 relBackJump, jsShr8And255 relBackJump] }

def pushStmtList (c : Ctx) (fuel : Nat) (body : List Statement)
    (st : CGState) : Except CompErr CGState :=
  match fuel with
  | 0 => .error .fuel
  | fuel + 1 =>
    match body with
    | [] => .ok st
    | s :: rest => do
      let st ← pushStatement c fuel s st
      pushStmtList c fuel rest st

end

/-- Resolve the recorded forward patches against the final label table (each
promise callback `buf[basePos-2] = relPos & 0xff; buf[basePos-1] =
(relPos >> 8) & 0xff` with `relPos = n - basePos`).  Only called once no
pending label remains, so the lookup always succeeds; `getD 0` is the
unreachable default. -/
def applyPatches (labelPos : List (String × Nat)) (buf : List Int) :
    List (Nat × String) → List Int
  | [] => buf
  | (basePos, label) :: rest =>
    let n : Nat := (alGet labelPos label).getD 0
    let relPos : Int := (n : Int) - basePos
    applyPatches labelPos (patchRel buf basePos relPos) rest

/-- The code-generation tail of `compile` (lines 1859-1866): emit every
statement, raise one aggregate error naming all still-unresolved labels, then
join the label patches. -/
def codegen (c : Ctx) (fuel : Nat) (statements : List Statement) :
    Except CompErr CGState := do
  let st ← pushStmtList c fuel statements CGState.init
  if st.pendingLabels ≠ [] then
    .error (.plain ("label target(s) not found: " ++
      String.intercalate ", " st.pendingLabels))
  else
    .ok { st with buf := applyPatches st.labelPos st.buf st.patches }

/-! ### Source locations -/

structure LineRef where
  fileName : String
  lineNumber : Nat
deriving Repr, DecidableEq

def lineErr (l : LineRef) (message : String) : CompErr :=
  .line l.fileName l.lineNumber message

/-! ### booleanify (compile.ts lines 255-286) -/

mutual

/-- `booleanify`: wrap bare flag/variable operands in condition position into
`isset`/`issetv` test calls, recursing through `and`/`or`/`not`. -/
def booleanify (expr : Expression) : Expression :=
  match expr with
  | .and ops => .and (booleanifyList ops)
  | .or ops => .or (booleanifyList ops)
  | .not op => .not (booleanify op)
  | .uint8 meaning value =>
    if meaning == "flag" then .call "isset" [.uint8 meaning value]
    else if meaning == "variable" then .call "issetv" [.uint8 meaning value]
    else .uint8 meaning value
  | e => e

def booleanifyList (ops : List Expression) : List Expression :=
  match ops with
  | [] => []
  | e :: rest => booleanify e :: booleanifyList rest

end

/-! ### Directive expression evaluator (compile.ts lines 571-751)

`parseDirectiveExpression` evaluates `#if`/`#elif` constant expressions over
a `PushbackIterator` of the directive's trailing tokens; macro names met in
`readAtom` are expanded by unshifting their replacement tokens onto the
pushback list.  The mutual recursion is fuel-indexed because a macro whose
replacement reaches its own name makes the source loop forever. -/

structure EvalState where
  pushback : List String
  rest : List String
deriving Repr, DecidableEq

/-- `tokenReader.next()`: pushback first, then the wrapped iterator. -/
def evalNext (st : EvalState) : Option (String × EvalState) :=
  match st.pushback with
  | t :: more => some (t, ⟨more, st.rest⟩)
  | [] =>
    match st.rest with
    | t :: more => some (t, ⟨[], more⟩)
    | [] => none

/-- The `OP_PRECEDENCE` table (compile.ts lines 302-314). -/
def opPrecedence (op : String) : Option Nat :=
  match op with
  | "?" => some 0
  | "||" => some 1
  | "&&" => some 2
  | "|" => some 3
  | "^" => some 4
  | "&" => some 5
  | "==" => some 6
  | "!=" => some 6
  | "<" => some 7
  | "<=" => some 7
  | ">" => some 7
  | ">=" => some 7
  | "<<" => some 8
  | ">>" => some 8
  | "+" => some 9
  | "-" => some 9
  | "*" => some 10
  | "/" => some 10
  | "%" => some 10
  | _ => none

/-- JS `~n`. -/
def jsBitNot (n : Int) : Int := -(toInt32 n) - 1

/-- JS `a & b`, `a | b`, `a ^ b` through the 32-bit two's complement. -/
def jsBitAnd (a b : Int) : Int :=
  toInt32 (((toUint32 a).land (toUint32 b) : Nat) : Int)

def jsBitOr (a b : Int) : Int :=
  toInt32 (((toUint32 a).lor (toUint32 b) : Nat) : Int)

def jsBitXor (a b : Int) : Int :=
  toInt32 (((toUint32 a).xor (toUint32 b) : Nat) : Int)

/-- JS `a << b`: shift count is `ToUint32(b) % 32`. -/
def jsShl (a b : Int) : Int :=
  toInt32 ((toInt32 a) * (2 ^ (toUint32 b % 32) : Nat))

/-- JS `a >> b`: arithmetic (sign-propagating) right shift. -/
def jsSar (a b : Int) : Int :=
  (toInt32 a).fdiv ((2 ^ (toUint32 b % 32) : Nat) : Int)

/-- JS `(a / b) | 0`: float division truncated toward zero by `| 0`; division
by zero gives `Infinity`/`NaN`, which `| 0` sends to 0.  On the integer
operands that occur here truncation agrees with `Int.tdiv`. -/
def jsDivOr0 (a b : Int) : Int := if b = 0 then 0 else toInt32 (Int.tdiv a b)

/-- JS `(a % b) | 0`: remainder with the dividend's sign; `x % 0` is `NaN`,
which `| 0` sends to 0. -/
def jsModOr0 (a b : Int) : Int := if b = 0 then 0 else toInt32 (Int.tmod a b)

/-- The binary-operator `switch` of the evaluator's `extendExpression`
(compile.ts lines 660-737), minus `?` which consumes more tokens: given the
operator token, the left value and the already-read right value, produce the
new accumulated value.  `&&`/`||` read their right operand unconditionally
and keep the left value when it decides. -/
def evalBinaryOp (op : String) (expr rhs : Int) : Int :=
  match op with
  | "==" => if expr = rhs then 1 else 0
  | "!=" => if expr ≠ rhs then 1 else 0
  | ">" => if expr > rhs then 1 else 0
  | ">=" => if expr ≥ rhs then 1 else 0
  | "<" => if expr < rhs then 1 else 0
  | "<=" => if expr ≤ rhs then 1 else 0
  | "+" => toInt32 (expr + rhs)
  | "-" => toInt32 (expr - rhs)
  | "*" => jsImul expr rhs
  | "/" => jsDivOr0 expr rhs
  | "%" => jsModOr0 expr rhs
  | "^" => jsBitXor expr rhs
  | "<<" => jsShl expr rhs
  | ">>" => jsSar expr rhs
  | "&" => jsBitAnd expr rhs
  | "|" => jsBitOr expr rhs
  | "&&" => if expr ≠ 0 then rhs else expr
  | "||" => if expr = 0 then rhs else expr
  | _ => expr

/-- The macro-expansion loop at the top of `readAtom`: keep taking tokens
while the current one is a defined macro name, unshifting its replacement
onto the pushback. -/
def readMacroToken (macros : List (String × List String)) :
    Nat → EvalState → Except CompErr (Option (String × EvalState))
  | 0, _ => .error .fuel
  | fuel + 1, st =>
    match evalNext st with
    | none => .ok none
    | some (t, st') =>
      if isKeywordToken t ∧ alHas macros t then
        readMacroToken macros fuel
          { st' with pushback := (alGet macros t).getD [] ++ st'.pushback }
      else .ok (some (t, st'))

mutual

/-- `readAtom` (compile.ts lines 573-637). -/
def readAtom (macros : List (String × List String)) (line : LineRef) :
    Nat → EvalState → Except CompErr (Int × EvalState)
  | 0, _ => .error .fuel
  | fuel + 1, st => do
    match ← readMacroToken macros (fuel + 1) st with
    | none => .error (lineErr line "unexpected end of expression")
    | some (t, st) =>
      if t == "(" then do
        let (expr, st) ← readExpression macros line fuel 0 st
        match evalNext st with
        | none => .error (lineErr line "unexpected end of expression")
        | some (t2, st) =>
          if t2 != ")" then .error (lineErr line "unexpected content")
          else .ok (expr, st)
      else if t == "!" then do
        let (v, st) ← readAtom macros line fuel st
        .ok (if v ≠ 0 then 0 else 1, st)
      else if t == "+" then
        readAtom macros line fuel st
      else if t == "-" then do
        let (v, st) ← readAtom macros line fuel st
        .ok (-v, st)
      else if t == "~" then do
        let (v, st) ← readAtom macros line fuel st
        .ok (jsBitNot v, st)
      else if isKeywordToken t then
        if t == "defined" then
          match evalNext st with
          | none => .ok (0, st)
          | some (t2, st2) =>
            if t2 == "(" then
              match evalNext st2 with
              | none => .error (lineErr line "invalid content in defined()")
              | some (nm, st3) =>
                if ¬ isKeywordToken nm then
                  .error (lineErr line "invalid content in defined()")
                else
                  let isDefined := alHas macros nm
                  match evalNext st3 with
                  | none => .error (lineErr line "invalid content in defined()")
                  | some (t4, st4) =>
                    if t4 != ")" then
                      .error (lineErr line "invalid content in defined()")
                    else .ok (if isDefined then 1 else 0, st4)
            else .ok (0, { st2 with pushback := t2 :: st2.pushback })
        else .ok (0, st)
      else if isNumberToken t then .ok (jsNumberOr0 t, st)
      else if isCharLiteralToken t then .ok (decodeCharLiteral t, st)
      else .error (lineErr line "unexpected content in expression")

/-- The evaluator's `extendExpression` loop (compile.ts lines 638-742). -/
def extendExpressionE (macros : List (String × List String)) (line : LineRef) :
    Nat → Int → Nat → EvalState → Except CompErr (Int × EvalState)
  | 0, _, _, _ => .error .fuel
  | fuel + 1, expr, level, st =>
    match evalNext st with
    | none => .ok (expr, st)
    | some (t, st') =>
      match opPrecedence t with
      | none => .ok (expr, { st' with pushback := t :: st'.pushback })
      | some precedence =>
        if precedence < level then
          .ok (expr, { st' with pushback := t :: st'.pushback })
        else if t == "?" then do
          let (thenValue, st) ← readExpression macros line fuel 0 st'
          match evalNext st with
          | none => .error (lineErr line "unexpected end of expression")
          | some (t2, st) =>
            if t2 != ":" then .error (lineErr line "unexpected content")
            else do
              let (elseValue, st) ←
                readExpression macros line fuel precedence st
              extendExpressionE macros line fuel
                (if expr ≠ 0 then thenValue else elseValue) level st
        else do
          let (rhs, st) ← readExpression macros line fuel (precedence + 1) st'
          extendExpressionE macros line fuel (evalBinaryOp t expr rhs) level st

/-- `readExpression(level)`. -/
def readExpression (macros : List (String × List String)) (line : LineRef) :
    Nat → Nat → EvalState → Except CompErr (Int × EvalState)
  | 0, _, _ => .error .fuel
  | fuel + 1, level, st => do
    let (atom, st) ← readAtom macros line fuel st
    extendExpressionE macros line fuel atom level st

end

/-- `parseDirectiveExpression` (compile.ts line 571): evaluate the whole
token list; trailing unconsumed tokens are an error. -/
def parseDirectiveExpression (macros : List (String × List String))
    (line : LineRef) (fuel : Nat) (tokens : List String) :
    Except CompErr Int := do
  let (expr, st) ← readExpression macros line fuel 0 ⟨[], tokens⟩
  match evalNext st with
  | none => .ok expr
  | some _ => .error (lineErr line "unexpected content in expression")

/-! ### Preprocessor (compile.ts lines 563-1012)

The directive loop walks the token-line array in place: directive lines have
their tokens cleared, conditional-skip erases the tokens of skipped lines,
and macro names on ordinary lines are substituted in place.  The loop is
modelled as a fueled recursion producing the processed lines; `#include` is
the one directive whose effect (a file read) is external I/O and is mapped to
the `io` error. -/

structure TokenLine where
  tokens : List String
  lineNumber : Nat
  fileName : String
  raw : String
deriving Repr, DecidableEq

def TokenLine.ref (l : TokenLine) : LineRef := ⟨l.fileName, l.lineNumber⟩

structure IfFrame where
  ifLine : LineRef
  elseLine : Option LineRef
deriving Repr, DecidableEq

/-- Preprocessor state: the macro table and the symbol tables populated by
directives.  (`messages` index 0 is reserved: the array starts `[null]`.)
The conditional stack is kept with its top at the head; the JS array pushes
at the end, so `ifStack[0]` in the source is the last element here. -/
structure PPState where
  simpleMacros : List (String × List String)
  ifStack : List IfFrame
  messageNumbers : List (String × Nat)
  messages : List (Option String)
  itemNumbers : List (String × Int)
  wordNumbers : List (String × Int)
deriving Repr, DecidableEq

def PPState.initial (macros : List (String × List String)) : PPState :=
  ⟨macros, [], [], [none], [], []⟩

/-- Grow the sparse `messages` array
(`messages.length = Math.max(messages.length, n + 1)`), holes being `none`. -/
def padTo (l : List (Option String)) (n : Nat) : List (Option String) :=
  if n ≤ l.length then l else l ++ List.replicate (n - l.length) none

/-- `messages[messageNumber] = message` after growing. -/
def setMessage (l : List (Option String)) (n : Nat) (m : String) :
    List (Option String) :=
  (padTo l (n + 1)).set n (some m)

/-- `line.raw.replace(/^\s*#\s*error\s*/, '')`: strip the directive prefix
from the raw text; if the raw line does not match the pattern it is kept
whole. -/
def stripErrorDirective (raw : String) : String :=
  let cs := raw.data.dropWhile (fun c => c == ' ' ∨ c == '\t')
  match cs with
  | '#' :: rest =>
    let rest := rest.dropWhile (fun c => c == ' ' ∨ c == '\t')
    match rest with
    | 'e' :: 'r' :: 'r' :: 'o' :: 'r' :: tail =>
      ⟨tail.dropWhile (fun c => c == ' ' ∨ c == '\t')⟩
    | _ => raw
  | _ => raw

/-- The in-place left-to-right macro substitution scan over a non-directive
line (compile.ts lines 1001-1008): at position `i`, a defined macro name is
spliced out and replaced by its replacement tokens, and the scan continues at
the same position (`i--; continue` then `i++`), so freshly substituted tokens
are themselves examined again; otherwise the scan advances.  The source
`for` loop has no termination guard, hence the fuel. -/
def expandTokens (macros : List (String × List String)) :
    Nat → List String → Nat → Except CompErr (List String)
  | 0, _, _ => .error .fuel
  | fuel + 1, tokens, i =>
    match tokens.get? i with
    | none => .ok tokens
    | some t =>
      if alHas macros t then
        expandTokens macros fuel
          (tokens.take i ++ (alGet macros t).getD [] ++ tokens.drop (i + 1)) i
      else expandTokens macros fuel tokens (i + 1)

/-- Result of a conditional-skip loop: the new stack, the skipped lines (all
with their tokens erased), and the unconsumed remainder. -/
structure SkipResult where
  ifStack : List IfFrame
  cleared : List TokenLine
  rest : List TokenLine
deriving Repr, DecidableEq

/-- The `clearLines` loop of the `#if`/`#ifdef`/`#ifndef` case
(compile.ts lines 830-877): erase lines until a branch at `stackBase` is
selected (`#else`, or a true `#elif`) or the frame is closed (`#endif`
popping below `stackBase`), maintaining the stack across nested
conditionals.  `origLine` is the opening directive line, whose (partially
spliced) tokens still name the directive for the end-of-input error. -/
def clearLinesIf (macros : List (String × List String)) (origLine : TokenLine)
    (stackBase : Nat) :
    Nat → List IfFrame → List TokenLine → Except CompErr SkipResult
  | 0, _, _ => .error .fuel
  | _ + 1, _, [] =>
    .error (lineErr origLine.ref
      ("unmatched #" ++ (origLine.tokens.getD 1 "undefined") ++ " directive"))
  | fuel + 1, stack, l :: rest =>
    let removeTokens := l.tokens
    let cleared := { l with tokens := [] }
    let next (stack' : List IfFrame) :
        Except CompErr SkipResult := do
      let r ← clearLinesIf macros origLine stackBase fuel stack' rest
      pure { r with cleared := cleared :: r.cleared }
    if removeTokens.get? 0 == some "#" then
      match removeTokens.get? 1 with
      | some "else" =>
        match stack with
        | [] => next stack
        | top :: lower =>
          if top.elseLine.isSome then
            .error (lineErr cleared.ref "unmatched #else directive")
          else
            let stack' := { top with elseLine := some cleared.ref } :: lower
            if stack'.length == stackBase then
              .ok ⟨stack', [cleared], rest⟩
            else next stack'
      | some "elif" =>
        match stack with
        | [] => next stack
        | top :: lower =>
          if top.elseLine.isSome then
            .error (lineErr cleared.ref "unmatched #elif directive")
          else
            let stack' : List IfFrame := ⟨cleared.ref, none⟩ :: lower
            if stack'.length == stackBase then do
              let v ← parseDirectiveExpression macros cleared.ref fuel
                (removeTokens.drop 2)
              if v ≠ 0 then .ok ⟨stack', [cleared], rest⟩
              else next stack'
            else next stack'
      | some "endif" =>
        if removeTokens.length ≠ 2 then
          .error (lineErr cleared.ref "invalid #endif directive")
        else
          let stack' := stack.tail
          if stack'.length < stackBase then .ok ⟨stack', [cleared], rest⟩
          else next stack'
      | some "if" | some "ifdef" | some "ifndef" =>
        next (⟨cleared.ref, none⟩ :: stack)
      | _ => next stack
    else next stack

/-- The `clearLines` loop of the `#else`/`#elif` case (compile.ts lines
896-932): skip unconditionally to the `#endif` that closes the current
frame; nested `#else`/`#elif` still update their frames (and can raise the
unmatched error), but never select a branch.  The opening line's tokens were
already cleared, so the end-of-input error names `#undefined`. -/
def clearLinesElse (macros : List (String × List String))
    (origLine : TokenLine) (stackBase : Nat) :
    Nat → List IfFrame → List TokenLine → Except CompErr SkipResult
  | 0, _, _ => .error .fuel
  | _ + 1, _, [] =>
    .error (lineErr origLine.ref "unmatched #undefined directive")
  | fuel + 1, stack, l :: rest =>
    let removeTokens := l.tokens
    let cleared := { l with tokens := [] }
    let next (stack' : List IfFrame) :
        Except CompErr SkipResult := do
      let r ← clearLinesElse macros origLine stackBase fuel stack' rest
      pure { r with cleared := cleared :: r.cleared }
    if removeTokens.get? 0 == some "#" then
      match removeTokens.get? 1 with
      | some "else" | some "elif" =>
        match stack with
        | [] => next stack
        | top :: lower =>
          if top.elseLine.isSome then
            .error (lineErr cleared.ref
              ("unmatched #" ++ (removeTokens.getD 1 "") ++ " directive"))
          else if removeTokens.get? 1 == some "else" then
            next ({ top with elseLine := some cleared.ref } :: lower)
          else
            next ((⟨cleared.ref, none⟩ : IfFrame) :: lower)
      | some "endif" =>
        if removeTokens.length ≠ 2 then
          .error (lineErr cleared.ref "invalid #endif directive")
        else
          let stack' := stack.tail
          if stack'.length < stackBase then .ok ⟨stack', [cleared], rest⟩
          else next stack'
      | some "if" | some "ifdef" | some "ifndef" =>
        next (⟨cleared.ref, none⟩ :: stack)
      | _ => next stack
    else next stack

/-- Register the keys of one `#word` directive (tokens from index 3, comma
separated). -/
def addWordTokens (lineRef : LineRef) (wordNumber : Int) :
    Nat → List String → List (String × Int) →
    Except CompErr (List (String × Int))
  | 0, _, _ => .error .fuel
  | _ + 1, [], acc => .ok acc
  | fuel + 1, tok :: rest, acc => do
    let acc ←
      if isStringLiteralToken tok then
        pure (alSet acc (decodeStringLiteral tok) wordNumber)
      else if isKeywordToken tok ∨ isNumberToken tok then
        pure (alSet acc tok wordNumber)
      else .error (lineErr lineRef "invalid #word directive")
    match rest with
    | [] => .ok acc
    | sep :: rest' =>
      if sep ≠ "," then .error (lineErr lineRef "invalid #word directive")
      else addWordTokens lineRef wordNumber fuel rest' acc

/-- The preprocessor's main directive loop (compile.ts lines 763-1009),
one recursive step per source line.  Directive lines and skipped lines come
out with empty token lists (`#pragma` lines keep theirs, as in the source);
ordinary lines come out macro-expanded. -/
def ppLoop (fuel : Nat) (st : PPState) (lines : List TokenLine) :
    Except CompErr (PPState × List TokenLine) :=
  match fuel, lines with
  | 0, _ => .error .fuel
  | _ + 1, [] => .ok (st, [])
  | fuel + 1, line :: rest =>
    let continueWith (st : PPState) (outLine : TokenLine)
        (rest : List TokenLine) : Except CompErr (PPState × List TokenLine) :=
      do
      let (st, outRest) ← ppLoop fuel st rest
      pure (st, outLine :: outRest)
    if line.tokens.get? 0 == some "#" then
      match line.tokens.get? 1 with
      | some "include" =>
        if line.tokens.length ≠ 3 ∨
            ¬ isStringLiteralToken (line.tokens.getD 2 "") then
          .error (lineErr line.ref "invalid #include directive")
        else
          .error (.io ("#include " ++ line.tokens.getD 2 ""))
      | some "define" =>
        if line.tokens.length < 3 ∨ ¬ isKeywordToken (line.tokens.getD 2 "")
        then .error (lineErr line.ref "invalid #define directive")
        else if alHas st.simpleMacros (line.tokens.getD 2 "") then
          .error (lineErr line.ref
            ("attempt to redefine existing macro: " ++ line.tokens.getD 2 ""))
        else
          continueWith
            { st with
                simpleMacros := alSet st.simpleMacros
                  (line.tokens.getD 2 "") (line.tokens.drop 3) }
            { line with tokens := [] } rest
      | some "error" =>
        .error (lineErr line.ref (stripErrorDirective line.raw))
      | some "pragma" =>
        if line.tokens.length < 3 ∨ ¬ isKeywordToken (line.tokens.getD 2 "")
        then .error (lineErr line.ref "invalid #pragma directive")
        else if line.tokens.getD 2 "" == "message" ∨
            line.tokens.getD 2 "" == "item" ∨
            line.tokens.getD 2 "" == "word" then
          -- the three registered pragma handlers are all no-ops;
          -- the pragma line keeps its tokens (the source never clears them)
          continueWith st line rest
        else
          .error (lineErr line.ref
            ("unknown #pragma: " ++ line.tokens.getD 2 ""))
      | some "undef" =>
        if line.tokens.length ≠ 3 ∨ ¬ isKeywordToken (line.tokens.getD 2 "")
        then .error (lineErr line.ref "invalid #undef directive")
        else if ¬ alHas st.simpleMacros (line.tokens.getD 2 "") then
          .error (lineErr line.ref
            ("attempt to undefine nonexisting macro: " ++
              line.tokens.getD 2 ""))
        else
          continueWith
            { st with
                simpleMacros := alRemove st.simpleMacros
                  (line.tokens.getD 2 "") }
            { line with tokens := [] } rest
      | some "if" | some "ifdef" | some "ifndef" =>
        let directive := line.tokens.getD 1 ""
        let conditionalTokens := line.tokens.drop 2
        if (if directive == "if" then conditionalTokens.length == 0
            else conditionalTokens.length ≠ 1 ∨
              ¬ isKeywordToken (conditionalTokens.getD 0 "")) then
          .error (lineErr line.ref
            ("invalid #" ++ directive ++ " directive"))
        else
          let conditionalTokens :=
            if directive == "ifdef" then
              ["defined", "(", conditionalTokens.getD 0 "", ")"]
            else if directive == "ifndef" then
              ["!", "defined", "(", conditionalTokens.getD 0 "", ")"]
            else conditionalTokens
          do
          let conditional ←
            parseDirectiveExpression st.simpleMacros line.ref fuel
              conditionalTokens
          let stack := (⟨line.ref, none⟩ : IfFrame) :: st.ifStack
          if conditional == 0 then do
            let r ← clearLinesIf st.simpleMacros
              { line with tokens := ["#", directive] } stack.length fuel
              stack rest
            let (st', outRest) ← ppLoop fuel
              { st with ifStack := r.ifStack } r.rest
            pure (st', { line with tokens := [] } :: (r.cleared ++ outRest))
          else
            continueWith { st with ifStack := stack }
              { line with tokens := [] } rest
      | some "else" | some "elif" =>
        let directive := line.tokens.getD 1 ""
        if (if directive == "else" then line.tokens.length ≠ 2
            else line.tokens.length < 3) then
          .error (lineErr line.ref
            ("invalid #" ++ directive ++ " directive"))
        else
          match st.ifStack with
          | [] =>
            .error (lineErr line.ref
              ("unmatched #" ++ directive ++ " directive"))
          | top :: lower =>
            if top.elseLine.isSome then
              .error (lineErr line.ref
                ("unmatched #" ++ directive ++ " directive"))
            else
              let stack : List IfFrame :=
                if directive == "elif" then ⟨line.ref, none⟩ :: lower
                else { top with elseLine := some line.ref } :: lower
              do
              let r ← clearLinesElse st.simpleMacros
                { line with tokens := [] } stack.length fuel stack rest
              let (st', outRest) ← ppLoop fuel
                { st with ifStack := r.ifStack } r.rest
              pure (st', { line with tokens := [] } :: (r.cleared ++ outRest))
      | some "endif" =>
        if line.tokens.length ≠ 2 then
          .error (lineErr line.ref "invalid #endif directive")
        else
          match st.ifStack with
          | [] => .error (lineErr line.ref "unmatched #endif directive")
          | _ :: lower =>
            continueWith { st with ifStack := lower }
              { line with tokens := [] } rest
      | some "message" =>
        let messageNumber := decodeIntegerLiteral (line.tokens.getD 2 "")
        if line.tokens.length ≠ 4 ∨ messageNumber.isNone ∨
            ¬ isStringLiteralToken (line.tokens.getD 3 "") then
          .error (lineErr line.ref "invalid #message directive")
        else
          let n := (messageNumber.getD 0).toNat
          let message := decodeStringLiteral (line.tokens.getD 3 "")
          let messageNumbers :=
            if alHas st.messageNumbers message then st.messageNumbers
            else alSet st.messageNumbers message n
          continueWith
            { st with messageNumbers,
                      messages := setMessage st.messages n message }
            { line with tokens := [] } rest
      | some "word" =>
        -- a `NaN` word number (no claim exercises it) is modelled as 0,
        -- which matches the bytes it would eventually emit
        let wordNumber := (decodeIntegerLiteral (line.tokens.getD 2 "")).getD 0
        do
        let wordNumbers ← addWordTokens line.ref wordNumber fuel
          (line.tokens.drop 3) st.wordNumbers
        continueWith { st with wordNumbers }
          { line with tokens := [] } rest
      | some "item" =>
        if line.tokens.length ≠ 4 then
          .error (lineErr line.ref "invalid #item directive")
        else
          let itemNumber :=
            (decodeIntegerLiteral (line.tokens.getD 2 "")).getD 0
          let tok := line.tokens.getD 3 ""
          let itemNumbers :=
            if isStringLiteralToken tok then
              alSet st.itemNumbers (decodeStringLiteral tok) itemNumber
            else if isKeywordToken tok ∨ isNumberToken tok then
              alSet st.itemNumbers tok itemNumber
            else st.itemNumbers
          continueWith { st with itemNumbers }
            { line with tokens := [] } rest
      | some other =>
        .error (lineErr line.ref
          (if isKeywordToken other then
            "unknown/unsupported directive: #" ++ other
          else "invalid directive"))
      | none =>
        .error (lineErr line.ref "invalid directive")
    else do
      let tokens ← expandTokens st.simpleMacros fuel line.tokens 0
      continueWith st { line with tokens } rest

/-- The end-of-input conditional-stack check (compile.ts lines 1010-1012):
`ifStack[0]` is the bottom of the stack, i.e. the last element of the
head-is-top list. -/
def preprocess (fuel : Nat) (macros : List (String × List String))
    (lines : List TokenLine) : Except CompErr (PPState × List TokenLine) := do
  let (st, outLines) ← ppLoop fuel (PPState.initial macros) lines
  match st.ifStack.getLast? with
  | some frame => .error (lineErr frame.ifLine "unmatched #if")
  | none => .ok (st, outLines)

/-! ### Comparison lowering (compile.ts lines 1343-1358 and 1433-1475)

`lowerComparison` is the body of the parser `extendExpression`'s
`case '==': case '!=': case '<': case '<=': case '>': case '>='` block,
factored out so the parser below can call it: swap a number-on-the-left
operand pair using `SWAP_COMPARATOR`, fold number-vs-number comparisons, and
lower the rest to (possibly negated) primitive test calls. -/

def swapComparator : String → String
  | "<" => ">"
  | "<=" => ">="
  | ">" => "<"
  | ">=" => "<="
  | "==" => "=="
  | _ => "!="

def negateComparator : String → String
  | "<" => ">="
  | "<=" => ">"
  | ">" => "<="
  | ">=" => "<"
  | "==" => "!="
  | _ => "=="

/-- The `{ '==': 'equal', '>': 'greater', '<': 'less' }` lookup. -/
def comparatorFuncBase : String → String
  | "==" => "equal"
  | ">" => "greater"
  | _ => "less"

/-- Numeric comparison used by the constant-folding branch. -/
def compareValues (comparator : String) (l r : Int) : Bool :=
  match comparator with
  | "==" => l == r
  | "!=" => l != r
  | "<" => l < r
  | "<=" => l ≤ r
  | ">" => l > r
  | _ => l ≥ r

def Expression.isNumberLit : Expression → Bool
  | .uint8 meaning _ => meaning == "number"
  | _ => false

def lowerComparison (opLine : LineRef) (comparator0 : String)
    (left0 right0 : Expression) : Except CompErr Expression :=
  let swapped := left0.isNumberLit
  let left := if swapped then right0 else left0
  let right := if swapped then left0 else right0
  let comparator := if swapped then swapComparator comparator0 else comparator0
  match left, right with
  | .uint8 lm lv, .uint8 rm rv =>
    if ¬ ((lm == "variable" && (rm == "number" || rm == "variable")) ||
          (lm == "number" && rm == "number")) then
      .error (lineErr opLine
        "invalid comparator: can only compare variables and integer literals")
    else if lm == "number" then
      .ok (.uint8 "number" (if compareValues comparator lv rv then 1 else 0))
    else
      let negate := comparator == "!=" || comparator == "<=" ||
        comparator == ">="
      let comparator := if negate then negateComparator comparator
        else comparator
      let comparison : Expression :=
        .call (comparatorFuncBase comparator ++
          (if rm == "variable" then "v" else "n"))
          [.uint8 lm lv, .uint8 rm rv]
      .ok (if negate then .not comparison else comparison)
  | _, _ =>
    .error (lineErr opLine
      "invalid comparator: can only compare variables and integer literals")

/-! ### A concrete command table

Modelled from the spec: the opcode/table database (`./commands`, the command
table collaborator of §6) is not part of `src/`; the spec describes it only as
a read-only map from command name to opcode number and parameter-kind
signature (or a variable-arity marker), with separate action and test
namespaces.  The opcode numbers below are placeholders; every theorem whose
conclusion depends on a particular opcode value quantifies over the code
instead of relying on these. -/

def specTable (actions tests : List CommandDef) : Ctx :=
  ⟨actions.map (fun c => (c.name, c)), tests.map (fun c => (c.name, c))⟩

def specCtx : Ctx := specTable
  [⟨"return", 0, .fixed []⟩,
   ⟨"increment", 1, .fixed ["variable"]⟩,
   ⟨"decrement", 2, .fixed ["variable"]⟩,
   ⟨"assignn", 3, .fixed ["variable", "number"]⟩,
   ⟨"assignv", 4, .fixed ["variable", "variable"]⟩,
   ⟨"inc", 9, .fixed ["variable"]⟩,
   ⟨"print", 6, .fixed ["message"]⟩,
   ⟨"word.cmd", 17, .fixed ["word"]⟩]
  [⟨"equaln", 1, .fixed ["variable", "number"]⟩,
   ⟨"equalv", 2, .fixed ["variable", "variable"]⟩,
   ⟨"lessn", 3, .fixed ["variable", "number"]⟩,
   ⟨"lessv", 4, .fixed ["variable", "variable"]⟩,
   ⟨"greatern", 5, .fixed ["variable", "number"]⟩,
   ⟨"greaterv", 6, .fixed ["variable", "variable"]⟩,
   ⟨"isset", 7, .fixed ["flag"]⟩,
   ⟨"issetv", 8, .fixed ["variable"]⟩,
   ⟨"said", 14, .vararg⟩]

/-- Bytes emitted for `k` copies of the statement `increment(v0)` under
`specCtx` (opcode 1, one operand byte 0). -/
def incFillBytes : Nat → List Int
  | 0 => []
  | k + 1 => [1, 0] ++ incFillBytes k

theorem incFillBytes_length (k : Nat) : (incFillBytes k).length = 2 * k := by
  induction k with
  | zero => simp [incFillBytes]
  | succ k ih => simp [incFillBytes, ih]; omega

/-- One step: emitting `increment(v0)` under `specCtx` appends opcode 1 and
operand byte 0. -/
theorem pushStatement_increment (f : Nat) (st : CGState) :
    pushStatement specCtx (f + 1) (.call "increment" [.uint8 "variable" 0]) st
      = .ok { st with buf := st.buf ++ [1, 0] } := by
  have h : pushStatement specCtx (f + 1)
      (.call "increment" [.uint8 "variable" 0]) st
      = .ok { st with buf := (st.buf ++ [1]) ++ [0] } := rfl
  rw [h]; simp

/-- Emitting `k` copies of `increment(v0)` appends `k` copies of `[1, 0]` to
the buffer and touches nothing else, then continues with the remaining
statements on the remaining fuel. -/
theorem pushStmtList_replicate_increment (k : Nat) : ∀ (f : Nat)
    (l2 : List Statement) (st : CGState),
    pushStmtList specCtx (f + k + 1)
      (List.replicate k (.call "increment" [.uint8 "variable" 0]) ++ l2) st
      = pushStmtList specCtx (f + 1) l2
          { st with buf := st.buf ++ incFillBytes k } := by
  induction k with
  | zero => intro f l2 st; simp [incFillBytes]
  | succ k ih =>
    intro f l2 st
    rw [List.replicate_succ, List.cons_append]
    show pushStmtList specCtx ((f + k + 1) + 1) _ _ = _
    rw [pushStmtList, pushStatement_increment (f + k) st]
    simp only [Bind.bind, Except.bind]
    rw [ih]
    simp [incFillBytes]

/-- Two's-complement 32-bit signed range. -/
def inRange32 (n : Int) : Prop := -2147483648 ≤ n ∧ n < 2147483648

/-- `toInt32` really is the two's-complement 32-bit wrap: its result is the
unique value in range congruent to the argument modulo 2^32. -/
theorem toInt32_spec (n : Int) :
    inRange32 (toInt32 n) ∧ (4294967296 : Int) ∣ (toInt32 n - n) := by
  unfold toInt32 inRange32
  have h1 : 0 ≤ (n + 2147483648).emod 4294967296 :=
    Int.emod_nonneg _ (by norm_num)
  have h2 : (n + 2147483648).emod 4294967296 < 4294967296 :=
    Int.emod_lt_of_pos _ (by norm_num)
  have h3 : 4294967296 * ((n + 2147483648) / 4294967296) +
      (n + 2147483648).emod 4294967296 = n + 2147483648 :=
    Int.ediv_add_emod _ _
  exact ⟨⟨by omega, by omega⟩,
    ⟨-((n + 2147483648) / 4294967296), by omega⟩⟩

/-! ### Output assembler (compile.ts lines 1867-1882)

After code generation the sparse message array is laid out: each absent slot
contributes offset -1, each present message the running total of earlier
present messages' lengths plus one terminator each; the block is the present
messages joined and terminated by NUL bytes.  (String lengths here are
code-point counts, which agree with JS UTF-16 lengths on the byte-oriented
strings involved.) -/

def computeMessageOffsets (messages : List (Option String)) : List Int :=
  let rec go (messageBlockLen : Nat) : List (Option String) → List Int
    | [] => []
    | none :: rest => -1 :: go messageBlockLen rest
    | some message :: rest =>
      (messageBlockLen : Int) :: go (messageBlockLen + message.length + 1) rest
  go 0 messages

/-- `messages.filter(v => v != null).join('\0') + '\0'`. -/
def messageBlock (messages : List (Option String)) : String :=
  String.intercalate "\x00" (messages.filterMap id) ++ "\x00"

/-- A token line of the main file, as the lexer would label it. -/
def mkLine (tokens : List String) (lineNumber : Nat) : TokenLine :=
  ⟨tokens, lineNumber, "main", ""⟩

/-- The claim's "unless the stack is non-empty and its top frame has no
recorded #else yet", negated: the states in which `#else`/`#elif` must be
rejected. -/
def elseIsUnmatched (stack : List IfFrame) : Prop :=
  match stack with
  | [] => True
  | top :: _ => top.elseLine.isSome

/-! ### Termination measure for the macro-substitution scan (C5) -/

/-- Number of defined-macro-name tokens at or after position `i`. -/
def mcount (macros : List (String × List String)) (tokens : List String)
    (i : Nat) : Nat :=
  ((tokens.drop i).filter (fun t => alHas macros t)).length

/-- A single-level macro table: no replacement token is itself a defined
macro name. -/
def macroFlat (macros : List (String × List String)) : Prop :=
  ∀ p ∈ macros, ∀ t ∈ p.2, alHas macros t = false

theorem mcount_cons (macros : List (String × List String))
    (tokens : List String) (i : Nat) (t : String)
    (hgi : tokens.get? i = some t) :
    mcount macros tokens i
      = (if alHas macros t then 1 else 0) + mcount macros tokens (i + 1) := by
  have hi : i < tokens.length := (List.get?_eq_some.mp hgi).1
  have ht : tokens[i] = t := by
    have h2 := (List.get?_eq_some.mp hgi).2
    simpa [List.get_eq_getElem] using h2
  unfold mcount
  rw [List.drop_eq_getElem_cons hi, ht]
  by_cases h : alHas macros t <;> simp [List.filter_cons, h, Nat.add_comm]

theorem mcount_splice (macros : List (String × List String))
    (tokens repl : List String) (i : Nat) (hi : i < tokens.length)
    (hrepl : ∀ u ∈ repl, alHas macros u = false) :
    mcount macros (tokens.take i ++ repl ++ tokens.drop (i + 1)) i
      = mcount macros tokens (i + 1) := by
  unfold mcount
  have hlen : (tokens.take i).length = i := by
    simp [List.length_take]; omega
  have hdrop : List.drop i (tokens.take i ++ repl ++ tokens.drop (i + 1))
      = repl ++ tokens.drop (i + 1) := by
    have h0 := List.drop_left (tokens.take i) (repl ++ tokens.drop (i + 1))
    rw [hlen] at h0
    rw [List.append_assoc]
    exact h0
  rw [hdrop, List.filter_append]
  have hnil : repl.filter (fun t => alHas macros t) = [] :=
    List.filter_eq_nil_iff.mpr (fun a ha => by simp [hrepl a ha])
  simp [hnil]

theorem flat_replacement (macros : List (String × List String)) (t : String)
    (hflat : macroFlat macros) (h : alHas macros t = true) :
    ∀ u ∈ (alGet macros t).getD [], alHas macros u = false := by
  intro u hu
  unfold alHas alGet at h
  cases hfind : macros.find? (fun p => p.1 == t) with
  | none => rw [hfind] at h; simp at h
  | some pr =>
    have hmem := List.mem_of_find?_eq_some hfind
    apply hflat pr hmem
    simpa [alGet, hfind] using hu

/-- Core termination argument: with a single-level table, the scan finishes
from any position, by induction on the number of macro tokens remaining and,
inside, on the distance to the end of the line. -/
theorem expandTokens_terminates_aux (m : Nat) :
    ∀ (macros : List (String × List String)), macroFlat macros →
    ∀ (r : Nat) (tokens : List String) (i : Nat),
    mcount macros tokens i ≤ m → tokens.length - i ≤ r →
    ∃ n res, expandTokens macros n tokens i = .ok res := by
  induction m using Nat.strong_induction_on with
  | _ m ihm =>
    intro macros hflat r
    induction r with
    | zero =>
      intro tokens i _ hr
      have hnone : tokens.get? i = none := List.get?_eq_none.mpr (by omega)
      exact ⟨1, tokens, by
        simp [expandTokens, ← List.get?_eq_getElem?, hnone]⟩
    | succ r ihr =>
      intro tokens i hm hr
      cases hgi : tokens.get? i with
      | none =>
        exact ⟨1, tokens, by
          simp [expandTokens, ← List.get?_eq_getElem?, hgi]⟩
      | some t =>
        have hi : i < tokens.length := (List.get?_eq_some.mp hgi).1
        by_cases hmac : alHas macros t
        · have hcount := mcount_cons macros tokens i t hgi
          rw [if_pos hmac] at hcount
          have hrepl := flat_replacement macros t hflat hmac
          have hsplice := mcount_splice macros tokens
            ((alGet macros t).getD []) i hi hrepl
          match m, hm with
          | 0, hm => omega
          | m + 1, hm =>
            obtain ⟨n, res, hrun⟩ := ihm m (by omega) macros hflat
              ((tokens.take i ++ (alGet macros t).getD [] ++
                tokens.drop (i + 1)).length - i)
              (tokens.take i ++ (alGet macros t).getD [] ++
                tokens.drop (i + 1)) i (by omega) le_rfl
            exact ⟨n + 1, res, by
              simp [expandTokens, ← List.get?_eq_getElem?, hgi, hmac]
              rw [← List.append_assoc]
              exact hrun⟩
        · have hcount := mcount_cons macros tokens i t hgi
          rw [if_neg hmac] at hcount
          obtain ⟨n, res, hrun⟩ := ihr tokens (i + 1) (by omega) (by omega)
          exact ⟨n + 1, res, by
            simp [expandTokens, ← List.get?_eq_getElem?, hgi, hmac]
            exact hrun⟩

/-! ### Ternary hoisting (compile.ts lines 316-559)

`hoistConditionalExpression` floats a nested ternary up to the top of an
expression; `hoistConditionalStatement` applies it below every statement,
turning a hoisted call argument into an `if` and a hoisted `if`/`while`/`do`
condition into an `Or`-of-`And`s via `flattenHoistedConditional` with
`negateCondition` for the else arm.  The source's reference-equality
unchanged checks coincide with value equality here (a hoist either returns
its argument or a `conditional` node), so unchanged subtrees are rebuilt
as equal values.  The recursions restart on freshly built nodes
(`hoistConditionalExpression({...thenOps})`), so they are fuel-indexed. -/

mutual

def hoistConditionalExpression : Nat → Expression → Option Expression
  | 0, _ => none
  | fuel + 1, expr =>
    match expr with
    | .literal _ | .uint8 _ _ | .uint16 _ _ => some expr
    | .conditional condition thenValue elseValue => do
      let hoistedCondition ← hoistConditionalExpression fuel condition
      let hoistedThen ← hoistConditionalExpression fuel thenValue
      let hoistedElse ← hoistConditionalExpression fuel elseValue
      some (.conditional hoistedCondition hoistedThen hoistedElse)
    | .and ops =>
      (match hoistScanExprs fuel 0 ops with
      | none => none
      | some none => some expr
      | some (some (i, c, t, e)) => do
        let thenValue ← hoistConditionalExpression fuel (.and (ops.set i t))
        let elseValue ← hoistConditionalExpression fuel (.and (ops.set i e))
        some (.conditional c thenValue elseValue))
    | .or ops =>
      (match hoistScanExprs fuel 0 ops with
      | none => none
      | some none => some expr
      | some (some (i, c, t, e)) => do
        let thenValue ← hoistConditionalExpression fuel (.or (ops.set i t))
        let elseValue ← hoistConditionalExpression fuel (.or (ops.set i e))
        some (.conditional c thenValue elseValue))
    | .not operand => do
      let hoisted ← hoistConditionalExpression fuel operand
      match hoisted with
      | .conditional c t e =>
        some (.conditional c (.not t) (.not e))
      | _ => some expr
    | .call func params =>
      (match hoistScanExprs fuel 0 params with
      | none => none
      | some none => some expr
      | some (some (i, c, t, e)) => do
        let thenValue ←
          hoistConditionalExpression fuel (.call func (params.set i t))
        let elseValue ←
          hoistConditionalExpression fuel (.call func (params.set i e))
        some (.conditional c thenValue elseValue))
    | .math operator lhs rhs => do
      let hl ← hoistConditionalExpression fuel lhs
      match hl with
      | .conditional c t e => do
        let thenValue ← hoistConditionalExpression fuel (.math operator t rhs)
        let elseValue ← hoistConditionalExpression fuel (.math operator e rhs)
        some (.conditional c thenValue elseValue)
      | _ => do
        let hr ← hoistConditionalExpression fuel rhs
        match hr with
        | .conditional c t e => do
          let thenValue ←
            hoistConditionalExpression fuel (.math operator lhs t)
          let elseValue ←
            hoistConditionalExpression fuel (.math operator lhs e)
          some (.conditional c thenValue elseValue)
        | _ => some expr

/-- The source's operand loop: find the first operand whose hoist surfaces a
ternary; report its index and the ternary's parts. -/
def hoistScanExprs : Nat → Nat → List Expression →
    Option (Option (Nat × Expression × Expression × Expression))
  | 0, _, _ => none
  | _ + 1, _, [] => some none
  | fuel + 1, i, op :: rest =>
    match hoistConditionalExpression fuel op with
    | none => none
    | some (.conditional c t e) => some (some (i, c, t, e))
    | some _ => hoistScanExprs fuel (i + 1) rest

end

mutual

/-- `negateCondition` (compile.ts lines 401-433): De Morgan through
`and`/`or`, collapse double negation, push into a ternary's branches, wrap
anything else in `not`. -/
def negateCondition : Expression → Expression
  | .and ops => .or (negateConditionList ops)
  | .or ops => .and (negateConditionList ops)
  | .not operand => operand
  | .conditional c t e => .conditional c (negateCondition t) (negateCondition e)
  | e => .not e

def negateConditionList : List Expression → List Expression
  | [] => []
  | e :: rest => negateCondition e :: negateConditionList rest

end

/-- `flattenHoistedConditional` (compile.ts lines 435-469): rewrite a
hoisted ternary condition into `Or [And (c :: then...), And (¬c :: else...)]`,
splicing an `and` branch's operands in place. -/
def flattenHoistedConditional : Expression → Expression
  | .conditional c t e =>
    let condition := flattenHoistedConditional c
    let thenValue := flattenHoistedConditional t
    let elseValue := flattenHoistedConditional e
    .or [.and (condition ::
          (match thenValue with
          | .and ops => ops
          | tv => [tv])),
         .and (negateCondition condition ::
          (match elseValue with
          | .and ops => ops
          | ev => [ev]))]
  | e => e

mutual

/-- `hoistConditionalStatement` (compile.ts lines 471-559).  The `block`
case's copy-on-write scan is value-equal to hoisting every element. -/
def hoistConditionalStatement : Nat → Statement → Option Statement
  | 0, _ => none
  | fuel + 1, statement =>
    match statement with
    | .block body => do
      let body ← hoistStatementList fuel body
      some (.block body)
    | .call func params =>
      (match hoistScanExprs fuel 0 params with
      | none => none
      | some none => some statement
      | some (some (i, c, t, e)) => do
        let thenDo ←
          hoistConditionalStatement fuel (.call func (params.set i t))
        let elseDo ←
          hoistConditionalStatement fuel (.call func (params.set i e))
        some (.ifS c thenDo (some elseDo)))
    | .empty | .goto _ | .label _ => some statement
    | .ifS condition thenDo elseDo => do
      let hoistedCondition ← hoistConditionalExpression fuel condition
      let hoistedThen ← hoistConditionalStatement fuel thenDo
      let hoistedElse ←
        match elseDo with
        | some e => (hoistConditionalStatement fuel e).map some
        | none => some none
      match hoistedCondition with
      | .conditional c t e =>
        some (.ifS (flattenHoistedConditional (.conditional c t e))
          hoistedThen hoistedElse)
      | _ => some (.ifS condition hoistedThen hoistedElse)
    | .whileS condition doThis => do
      let hoistedCondition ← hoistConditionalExpression fuel condition
      let hoistedBody ← hoistConditionalStatement fuel doThis
      match hoistedCondition with
      | .conditional c t e =>
        some (.whileS (flattenHoistedConditional (.conditional c t e))
          hoistedBody)
      | _ => some (.whileS condition hoistedBody)
    | .doS body condition => do
      let hoistedCondition ← hoistConditionalExpression fuel condition
      let hoistedBody ← hoistConditionalStatement fuel body
      match hoistedCondition with
      | .conditional c t e =>
        some (.doS hoistedBody
          (flattenHoistedConditional (.conditional c t e)))
      | _ => some (.doS hoistedBody condition)

def hoistStatementList : Nat → List Statement → Option (List Statement)
  | 0, _ => none
  | _ + 1, [] => some []
  | fuel + 1, s :: rest => do
    let s ← hoistConditionalStatement fuel s
    let rest ← hoistStatementList fuel rest
    some (s :: rest)

end

mutual

/-- Does a ternary node occur anywhere in the expression? -/
def Expression.hasConditional : Expression → Bool
  | .conditional _ _ _ => true
  | .call _ params => exprListHasConditional params
  | .and ops => exprListHasConditional ops
  | .or ops => exprListHasConditional ops
  | .not operand => operand.hasConditional
  | .math _ lhs rhs => lhs.hasConditional || rhs.hasConditional
  | _ => false

def exprListHasConditional : List Expression → Bool
  | [] => false
  | e :: rest => e.hasConditional || exprListHasConditional rest

end

mutual

/-- Does a ternary node occur anywhere below the top of the statement? -/
def Statement.hasConditional : Statement → Bool
  | .call _ params => exprListHasConditional params
  | .label _ => false
  | .goto _ => false
  | .empty => false
  | .ifS condition thenDo elseDo =>
    condition.hasConditional || thenDo.hasConditional ||
      (match elseDo with
      | some s => s.hasConditional
      | none => false)
  | .whileS condition doThis =>
    condition.hasConditional || doThis.hasConditional
  | .doS body condition =>
    body.hasConditional || condition.hasConditional
  | .block body => stmtListHasConditional body

def stmtListHasConditional : List Statement → Bool
  | [] => false
  | s :: rest => s.hasConditional || stmtListHasConditional rest

end

/-! ### Lexer (compile.ts lines 5-62)

`tokenize`: replace trigraphs, splice backslash-newline, split into lines,
tokenize each line by the source's ordered-alternative token regex, then
strip comments with block-comment state carried across lines. -/

def trigraphChar (c : Char) : Option Char :=
  match c with
  | '=' => some '#'
  | '/' => some '\\'
  | '\'' => some '^'
  | '(' => some '['
  | ')' => some ']'
  | '!' => some '|'
  | '<' => some '\x7b'
  | '>' => some '\x7d'
  | '-' => some '~'
  | _ => none

/-- `src.replace(/\?\?[=\/'()!<>\-]/g, ...)`: left-to-right, non-overlapping. -/
def applyTrigraphs : List Char → List Char
  | '?' :: '?' :: c :: rest =>
    match trigraphChar c with
    | some t => t :: applyTrigraphs rest
    | none => '?' :: applyTrigraphs ('?' :: c :: rest)
  | c :: rest => c :: applyTrigraphs rest
  | [] => []

/-- `src.replace(/\\(\r\n?|\n)/g, '')`: physical line splicing. -/
def spliceLines : List Char → List Char
  | '\\' :: '\r' :: '\n' :: rest => spliceLines rest
  | '\\' :: '\r' :: rest => spliceLines rest
  | '\\' :: '\n' :: rest => spliceLines rest
  | c :: rest => c :: spliceLines rest
  | [] => []

/-- `src.split(/\r\n?|\n/g)`. -/
def splitSrcLines (cs : List Char) : List (List Char) :=
  let rec go (acc : List Char) : List Char → List (List Char)
    | [] => [acc.reverse]
    | '\r' :: '\n' :: rest => acc.reverse :: go [] rest
    | '\r' :: rest => acc.reverse :: go [] rest
    | '\n' :: rest => acc.reverse :: go [] rest
    | c :: rest => go (c :: acc) rest
  go [] cs

def isIdentChar (c : Char) : Bool := c.isAlpha || c == '_' || c.isDigit

/-- The greedy tail of the numeric-literal alternative
`(?:[ep][\+\-]|[a-z0-9_\.])*` (case-insensitive). -/
def numberTail : List Char → List Char × List Char
  | c :: sgn :: rest =>
    if (c == 'e' ∨ c == 'E' ∨ c == 'p' ∨ c == 'P') ∧
        (sgn == '+' ∨ sgn == '-') then
      let (tk, rm) := numberTail rest
      (c :: sgn :: tk, rm)
    else if c.isAlphanum ∨ c == '_' ∨ c == '.' then
      let (tk, rm) := numberTail (sgn :: rest)
      (c :: tk, rm)
    else ([], c :: sgn :: rest)
  | [c] =>
    if c.isAlphanum ∨ c == '_' ∨ c == '.' then ([c], []) else ([], [c])
  | [] => ([], [])

/-- The quoted-literal alternative `q(?:[^q\\]+|\\.)*q`: fails (none) when
the closing quote is missing. -/
def quotedTail (q : Char) : List Char → Option (List Char × List Char)
  | [] => none
  | '\\' :: c :: rest =>
    (quotedTail q rest).map (fun p => ('\\' :: c :: p.1, p.2))
  | ['\\'] => none
  | c :: rest =>
    if c == q then some ([q], rest)
    else (quotedTail q rest).map (fun p => (c :: p.1, p.2))

/-- One token match at the current position: the source regex's alternatives
tried in order (JS alternation is ordered, not longest-match).  Returns none
only on whitespace, where the regex engine advances one character. -/
def matchToken : List Char → Option (List Char × List Char)
  | [] => none
  | c :: rest =>
    -- [a-z_][a-z_0-9]*
    if c.isAlpha ∨ c == '_' then
      let tail := rest.takeWhile isIdentChar
      some (c :: tail, rest.drop tail.length)
    -- \.?[0-9](?:[ep][\+\-]|[a-z0-9_\.])*
    else if c == '.' ∧ (rest.headD ' ').isDigit then
      match rest with
      | d :: more =>
        let (tk, rm) := numberTail more
        some ('.' :: d :: tk, rm)
      | [] => none
    else if c.isDigit then
      let (tk, rm) := numberTail rest
      some (c :: tk, rm)
    -- "(?:[^"\\]+|\\.)*"
    else if c == '"' then
      match quotedTail '"' rest with
      | some (tk, rm) => some ('"' :: tk, rm)
      | none => some ([c], rest)  -- falls through to \S
    else if c == '\'' then
      match quotedTail '\'' rest with
      | some (tk, rm) => some ('\'' :: tk, rm)
      | none => some ([c], rest)
    else
      match c, rest with
      -- \+[\+=]
      | '+', x :: rm =>
        if x == '+' ∨ x == '=' then some (['+', x], rm) else some (['+'], rest)
      -- \-[\-=>]
      | '-', x :: rm =>
        if x == '-' ∨ x == '=' ∨ x == '>' then some (['-', x], rm)
        else some (['-'], rest)
      -- <<=? then <[%:]
      | '<', '<' :: '=' :: rm => some (['<', '<', '='], rm)
      | '<', '<' :: rm => some (['<', '<'], rm)
      | '<', x :: rm =>
        if x == '%' ∨ x == ':' then some (['<', x], rm)
        else if x == '=' then some (['<', '='], rm)  -- via [=!&|^<>]=
        else some (['<'], rest)
      -- >>=? then [%:]> and [=!&|^<>]=
      | '>', '>' :: '=' :: rm => some (['>', '>', '='], rm)
      | '>', '>' :: rm => some (['>', '>'], rm)
      | '>', '=' :: rm => some (['>', '='], rm)
      | '%', '>' :: rm => some (['%', '>'], rm)
      | ':', '>' :: rm => some ([':', '>'], rm)
      -- %:(?=%:)?
      | '%', ':' :: rm => some (['%', ':'], rm)
      -- \/[\*=\/]
      | '/', x :: rm =>
        if x == '*' ∨ x == '=' ∨ x == '/' then some (['/', x], rm)
        else some (['/'], rest)
      -- \*[=\/]
      | '*', x :: rm =>
        if x == '=' ∨ x == '/' then some (['*', x], rm)
        else some (['*'], rest)
      -- [=!&|^<>]= (remaining first chars), && , \|\| , ::
      | '=', '=' :: rm => some (['=', '='], rm)
      | '!', '=' :: rm => some (['!', '='], rm)
      | '&', '=' :: rm => some (['&', '='], rm)
      | '|', '=' :: rm => some (['|', '='], rm)
      | '^', '=' :: rm => some (['^', '='], rm)
      | '&', '&' :: rm => some (['&', '&'], rm)
      | '|', '|' :: rm => some (['|', '|'], rm)
      | ':', ':' :: rm => some ([':', ':'], rm)
      -- \S
      | c, _ =>
        if c == ' ' ∨ c == '\t' ∨ c == '\x0B' ∨ c == '\x0C' then none
        else some ([c], rest)

/-- Tokenize one physical line (`line.match(tokenRegex) || []`). -/
def tokenizeLine : Nat → List Char → List String
  | 0, _ => []
  | _ + 1, [] => []
  | fuel + 1, cs =>
    match matchToken cs with
    | some (tk, rm) => (⟨tk⟩ : String) :: tokenizeLine fuel rm
    | none => tokenizeLine fuel cs.tail

/-- The comment-stripping pass over one line's tokens, with the in-comment
flag carried in and out (compile.ts lines 29-50). -/
def stripLineComments : Bool → List String → List String × Bool
  | true, [] => ([], true)
  | true, t :: rest =>
    if t == "*/" then stripLineComments false rest
    else stripLineComments true rest
  | false, [] => ([], false)
  | false, t :: rest =>
    if t == "/*" then stripLineComments true rest
    else if t == "*/" then
      let (r, st) := stripLineComments false rest
      ("*" :: "/" :: r, st)
    else if t == "//" then ([], false)
    else
      let (r, st) := stripLineComments false rest
      (t :: r, st)

/-- Comment stripping across the whole file; a still-open block comment at
end of input is the plain `unterminated comment` error. -/
def stripComments (path : String) :
    Bool → Nat → List (List Char) → Except CompErr (List TokenLine)
  | true, _, [] => .error (.plain "unterminated comment")
  | false, _, [] => .ok []
  | inComment, i, lcs :: rest =>
    let tokens := tokenizeLine (lcs.length + 1) lcs
    let (tokens, inComment) := stripLineComments inComment tokens
    (stripComments path inComment (i + 1) rest).map
      (fun ls => ⟨tokens, i + 1, path, ⟨lcs⟩⟩ :: ls)

/-- `tokenize(src, path)`. -/
def tokenize (src : String) (path : String) : Except CompErr (List TokenLine) :=
  stripComments path false 0 (splitSrcLines (spliceLines (applyTrigraphs src.data)))

/-! ### The parser token stream (compile.ts lines 1013-1072)

`readTokens()` walks the processed token lines and re-yields its last token
whenever the consumer has set `repeatToken`.  Once the generator completes it
is done for good, so the model clears `cur` at exhaustion: a later repeat
request cannot revive a token. -/

structure Tok where
  token : String
  line : LineRef
deriving Repr, DecidableEq

structure TokCursor where
  cur : Option Tok
  repeatTok : Bool
  rest : List Tok
deriving Repr, DecidableEq

def flattenTokens : List TokenLine → List Tok
  | [] => []
  | l :: ls => l.tokens.map (fun t => ⟨t, l.ref⟩) ++ flattenTokens ls

/-- `t.next()`: re-yield the current token when `repeatToken` is set and the
generator is still live, else advance. -/
def TokCursor.next (c : TokCursor) : Option Tok × TokCursor :=
  if c.repeatTok then
    match c.cur with
    | some t => (some t, { c with repeatTok := false })
    | none => (none, c)
  else
    match c.rest with
    | t :: rs => (some t, ⟨some t, false, rs⟩)
    | [] => (none, { c with cur := none })

/-- A token requirement: none (`tryToken()`), an exact string, or a
predicate (standing for both the function and the regex forms, which the
source treats identically). -/
inductive TokReq where
  | any
  | str (s : String)
  | test (f : String → Bool)

/-- `tryToken(req)`: `false` (none) at end of input; on a mismatch the token
is pushed back by setting `repeatToken`. -/
def tryToken (req : TokReq) (c : TokCursor) : Option Tok × TokCursor :=
  match TokCursor.next c with
  | (none, c2) => (none, c2)
  | (some t, c2) =>
    match req with
    | .any => (some t, c2)
    | .str s =>
      if t.token == s then (some t, c2)
      else (none, { c2 with repeatTok := true })
    | .test f =>
      if f t.token then (some t, c2)
      else (none, { c2 with repeatTok := true })

/-! ### The parser token predicates (compile.ts lines 74-77, 195-214,
1167, 1176, 1360)

Each predicate states the language of the corresponding source regex; the
byte-valued ones share `isByteDecimal`, the canonical decimals 0-255 that
`(?:0|1[0-9]{0,2}|2(?:[0-4][0-9]|5[0-5]|[0-9])?|[3-9][0-9]?)$` accepts. -/

def isByteDecimal (cs : List Char) : Bool :=
  match parseAllDigits 10 cs with
  | some n =>
    decide (n ≤ 255) &&
      (match cs with
       | '0' :: rest => rest == []
       | _ => true)
  | none => false

def varTest (s : String) : Bool :=
  match s.data with
  | 'v' :: rest => isByteDecimal rest
  | _ => false

def flagTest (s : String) : Bool :=
  match s.data with
  | 'f' :: rest => isByteDecimal rest
  | _ => false

def anyValueTest (s : String) : Bool :=
  match s.data with
  | c :: rest =>
    (c == 'v' || c == 'f' || c == 'm' || c == 'o' || c == 'i' ||
      c == 's' || c == 'w' || c == 'c') && isByteDecimal rest
  | _ => false

def isHexDigitI (c : Char) : Bool :=
  c.isDigit || ('a' ≤ c && c ≤ 'f') || ('A' ≤ c && c ≤ 'F')

/-- Does `0x` followed by a hex digit occur anywhere (the unanchored middle
alternative of `intTest`)? -/
def hasHexRun : List Char → Bool
  | '0' :: x :: d :: rest =>
    ((x == 'x' || x == 'X') && isHexDigitI d) || hasHexRun (x :: d :: rest)
  | _ :: rest => hasHexRun rest
  | [] => false

/-- A suffix matching `[1-9][0-9]*$`. -/
def hasDecSuffix : List Char → Bool
  | [] => false
  | c :: rest =>
    (('1' ≤ c && c ≤ '9') && rest.all (fun d => d.isDigit)) ||
      hasDecSuffix rest

/-- `/^0[0-7]*|0x[a-f0-9]+|[1-9][0-9]*$/i`: only the first alternative is
anchored at the start and only the last at the end, so any token starting
with `0` passes (the `[0-7]*` may match zero digits), as does any token
containing `0x` plus a hex digit or ending in a digit run led by a nonzero
digit. -/
def intTest (s : String) : Bool :=
  (match s.data with
   | '0' :: _ => true
   | _ => false) ||
  hasHexRun s.data || hasDecSuffix s.data

/-- Two-character substring search. -/
def hasPair (a b : Char) : List Char → Bool
  | x :: y :: rest => (x == a && y == b) || hasPair a b (y :: rest)
  | _ => false

/-- The operator test `/^[\+\-\*\/]|[<>]=?|[!=]=|\|\||&&$/` of
`extendExpression`: a leading `+ - * /`, a `<` or `>` anywhere (its `=?` is
optional), a `==`, `!=` or `||` substring, or a trailing `&&`.  Note that
`?` matches none of the alternatives, so the ternary `case` of
`extendExpression` is unreachable from the token stream. -/
def opTokenTest (s : String) : Bool :=
  (match s.data with
   | c :: _ => c == '+' || c == '-' || c == '*' || c == '/'
   | [] => false) ||
  s.data.contains '<' || s.data.contains '>' ||
  hasPair '=' '=' s.data || hasPair '!' '=' s.data ||
  hasPair '|' '|' s.data ||
  (match s.data.reverse with
   | y :: x :: _ => x == '&' && y == '&'
   | _ => false)

/-- `/^\+\+|\-\-$/`: starts with `++` or ends with `--`. -/
def crementTest (s : String) : Bool :=
  (match s.data with
   | '+' :: '+' :: _ => true
   | _ => false) ||
  (match s.data.reverse with
   | '-' :: '-' :: _ => true
   | _ => false)

/-- `/^[\+\-*\/]?=$/`: exactly the five assignment tokens. -/
def assignTest (s : String) : Bool :=
  s == "=" || s == "+=" || s == "-=" || s == "*=" || s == "/="

/-- `UINT8TYPE_BY_PREFIX` (compile.ts lines 200-208); only the seven listed
prefixes reach it (`w` takes the uint16 branch first), so the catch-all is
the `s` entry. -/
def uint8TypeFor (c : Char) : String :=
  match c with
  | 'm' => "message"
  | 'c' => "controller"
  | 'v' => "variable"
  | 'f' => "flag"
  | 'i' => "inventory-item"
  | 'o' => "room-object"
  | _ => "string"

/-- `Number.parseInt(s)` / `+s` on the all-digit strings the guarding
predicates admit, where the two agree. -/
def digitsValue (s : String) : Int :=
  ((parseAllDigits 10 s.data).getD 0 : Int)

/-! ### Parser state (compile.ts lines 561-570 and 1013-1025)

The parser closes over the token generator and the symbol tables; message
literals met in action-call arguments allocate message numbers, so
`messageNumbers`, `messages` and `nextFreeMessageNumber` are threaded as
state.  `itemNumbers` and `wordNumbers` are read-only here but live in the
same closure. -/

structure PCtx where
  ctx : Ctx
  lastLine : LineRef

structure ParseState where
  cursor : TokCursor
  messageNumbers : List (String × Nat)
  messages : List (Option String)
  nextFreeMessageNumber : Nat
  itemNumbers : List (String × Int)
  wordNumbers : List (String × Int)
deriving Repr, DecidableEq

def ParseState.tryTok (st : ParseState) (req : TokReq) :
    Option Tok × ParseState :=
  match tryToken req st.cursor with
  | (r, c) => (r, { st with cursor := c })

/-- `repeatToken = true`. -/
def ParseState.pushback (st : ParseState) : ParseState :=
  { st with cursor := { st.cursor with repeatTok := true } }

/-- `requireToken(req)` (compile.ts lines 1051-1072): end of input names
the last processed token line. -/
def ParseState.reqTok (st : ParseState) (pc : PCtx) (req : TokReq) :
    Except CompErr (Tok × ParseState) :=
  match TokCursor.next st.cursor with
  | (none, _) => .error (lineErr pc.lastLine "unexpected end of input")
  | (some t, c) =>
    let st := { st with cursor := c }
    match req with
    | .any => .ok (t, st)
    | .str s =>
      if t.token == s then .ok (t, st)
      else .error (lineErr t.line ("expected " ++ s ++ ", got " ++ t.token))
    | .test f =>
      if f t.token then .ok (t, st)
      else .error (lineErr t.line ("unexpected token: " ++ t.token))

/-- The dotted-name loop `while (tryToken('.')) func += '.' + ...` shared by
statement calls, gotos and atom calls. -/
def readDotName (pc : PCtx) : Nat → String → ParseState →
    Except CompErr (String × ParseState)
  | 0, _, _ => .error .fuel
  | fuel + 1, func, st =>
    match st.tryTok (.str ".") with
    | (none, st) => .ok (func, st)
    | (some _, st) => do
      let (t, st) ← st.reqTok pc (.test isKeywordToken)
      readDotName pc fuel (func ++ "." ++ t.token) st

/-- String-literal concatenation in `readAtomExpression` (compile.ts lines
1635-1645): adjacent string tokens merge by dropping the closing and opening
quotes. -/
def readStringConcat : Nat → String → ParseState →
    Except CompErr (String × ParseState)
  | 0, _, _ => .error .fuel
  | fuel + 1, lit, st =>
    match st.tryTok (.test isStringLiteralToken) with
    | (none, st) => .ok (lit, st)
    | (some t, st) =>
      readStringConcat fuel (lit.dropRight 1 ++ t.token.drop 1) st

/-- The right-to-left constant scan of the `||`/`&&` case (compile.ts lines
1393-1426): walking `i` from the end, a number literal that decides the
combinator (`0` under `&&`, nonzero under `||`) is returned outright
(`inl`), a neutral one is spliced out, and everything else is kept. -/
def foldJuncts (isAnd : Bool) : List Expression →
    Sum Expression (List Expression)
  | [] => .inr []
  | e :: rest =>
    match foldJuncts isAnd rest with
    | .inl z => .inl z
    | .inr kept =>
      match e with
      | .uint8 m v =>
        if m == "number" then
          if (if isAnd then v == 0 else v != 0) then .inl (.uint8 m v)
          else .inr kept
        else .inr (.uint8 m v :: kept)
      | e => .inr (e :: kept)

/-- The vararg branch of the test-call parameter check (compile.ts lines
1559-1573): string literals become dictionary words, word values pass, and
anything else is rejected. -/
def mapVarargWords (line : LineRef) (wordNumbers : List (String × Int)) :
    List Expression → Except CompErr (List Expression)
  | [] => .ok []
  | v :: rest => do
    let v2 ←
      match v with
      | .literal lit =>
        if isStringLiteralToken lit then
          let word := decodeStringLiteral lit
          match alGet wordNumbers word with
          | some n => Except.ok (Expression.uint16 "word" n)
          | none =>
            Except.error (lineErr line
              ("word not found in dictionary: " ++ word))
        else Except.error (lineErr line "parameters must be words")
      | .uint16 m v =>
        if m == "word" then Except.ok (Expression.uint16 m v)
        else Except.error (lineErr line "parameters must be words")
      | _ => Except.error (lineErr line "parameters must be words")
    let rest2 ← mapVarargWords line wordNumbers rest
    .ok (v2 :: rest2)

/-- The fixed-arity branch of the test-call parameter check (compile.ts
lines 1574-1585). -/
def checkFixedTestParams (line : LineRef) (func : String)
    (kinds : List String) : List Expression → Nat → Except CompErr Unit
  | [], _ => .ok ()
  | p :: rest, i =>
    match p with
    | .uint8 m _ =>
      if m == kinds.getD i "" then
        checkFixedTestParams line func kinds rest (i + 1)
      else
        .error (lineErr line ("invalid parameter " ++ toString (i + 1) ++
          " to " ++ func ++ "(): expected " ++ kinds.getD i "" ++
          ", got " ++ m))
    | p =>
      .error (lineErr line ("invalid parameter " ++ toString (i + 1) ++
        " to " ++ func ++ "(): expected " ++ kinds.getD i "" ++
        ", got " ++ p.typeName))

/-- `while (typeof messages[nextFreeMessageNumber] === 'string')
nextFreeMessageNumber++` — a filled slot holds a string, a hole or an index
past the end does not.  The scan moves strictly right, so
`messages.length + 1` fuel always suffices. -/
def findFreeMessage (messages : List (Option String)) :
    Nat → Nat → Nat
  | 0, n => n
  | fuel + 1, n =>
    match messages.get? n with
    | some (some _) => findFreeMessage messages fuel (n + 1)
    | _ => n

/-- The literal-rewrite loop over a fixed-arity action call's parameters
(compile.ts lines 1283-1335): string-literal arguments in `message`, `word`
and `inventory-item` positions are replaced by their table numbers, message
literals allocating the next free message slot on first use. -/
def fixActionParams (line : LineRef) (func : String) (kinds : List String) :
    List Expression → Nat → ParseState →
    Except CompErr (List Expression × ParseState)
  | [], _, st => .ok ([], st)
  | p :: rest, i, st => do
    let (p2, st) ←
      match p with
      | .literal lit =>
        if ¬ isStringLiteralToken lit then
          Except.error (lineErr line ("parameter " ++ toString (i + 1) ++
            " for " ++ func ++ "() -- expected " ++ kinds.getD i "" ++
            ", got " ++ lit))
        else
          let strLiteral := decodeStringLiteral lit
          let kind := kinds.getD i ""
          if kind == "message" then
            match alGet st.messageNumbers strLiteral with
            | some n => Except.ok (Expression.uint8 "message" (n : Int), st)
            | none =>
              let n := findFreeMessage st.messages
                (st.messages.length + 1) st.nextFreeMessageNumber
              Except.ok (Expression.uint8 "message" (n : Int),
                { st with
                    messageNumbers := alSet st.messageNumbers strLiteral n,
                    messages := setMessage st.messages n strLiteral,
                    nextFreeMessageNumber := n + 1 })
          else if kind == "word" then
            match alGet st.wordNumbers strLiteral with
            | some n => Except.ok (Expression.uint16 "word" n, st)
            | none =>
              Except.error (lineErr line
                ("word not found in dictionary: " ++ strLiteral))
          else if kind == "inventory-item" then
            match alGet st.itemNumbers strLiteral with
            | some n => Except.ok (Expression.uint8 "inventory-item" n, st)
            | none =>
              Except.error (lineErr line
                ("unknown inventory item: " ++ strLiteral))
          else
            Except.error (lineErr line ("parameter " ++ toString (i + 1) ++
              " for " ++ func ++ "() -- expected " ++ kinds.getD i "" ++
              ", got " ++ lit))
      | p => Except.ok (p, st)
    let (rest2, st) ← fixActionParams line func kinds rest (i + 1) st
    .ok (p2 :: rest2, st)

/-! ### The recursive-descent parser (compile.ts lines 1073-1655)

One fueled mutual recursion: `readStatement`, `readExpressionP` (the source `readExpression`),
`readAtomExpression` and `extendExpression` exactly as in the source, plus
the source's inner loops (`extendStep` is the `op = tryToken(...)` /
`while (op)` turn of `extendExpression`, `extendLoop` its body,
`readCallParams` the comma-separated argument loop, `readMoreOperands` the
`while (tryToken(op.token))` operand loop, `readStatementList` the block
body loop). -/

mutual

def readStatement (pc : PCtx) (fuel : Nat) (st : ParseState) :
    Except CompErr (Statement × ParseState) :=
  match fuel with
  | 0 => .error .fuel
  | fuel + 1 => do
    let (tk, st) ← st.reqTok pc .any
    let token := tk.token
    let line := tk.line
    match token with
    | "if" => do
      let (_, st) ← st.reqTok pc (.str "(")
      let (cond0, st) ← readExpressionP pc 0 fuel st
      let condition := booleanify cond0
      let (_, st) ← st.reqTok pc (.str ")")
      let (thenDo, st) ← readStatement pc fuel st
      let (elseDo, st) ←
        match st.tryTok (.str "else") with
        | (none, st) => Except.ok ((none : Option Statement), st)
        | (some _, st) => do
          let (e, st) ← readStatement pc fuel st
          Except.ok (some e, st)
      match condition with
      | .uint8 m v =>
        if m == "number" then
          if v = 0 then .ok (elseDo.getD .empty, st)
          else .ok (thenDo, st)
        else .ok (.ifS condition thenDo elseDo, st)
      | _ => .ok (.ifS condition thenDo elseDo, st)
    | "while" => do
      let (_, st) ← st.reqTok pc (.str "(")
      let (cond0, st) ← readExpressionP pc 0 fuel st
      let condition := booleanify cond0
      let (_, st) ← st.reqTok pc (.str ")")
      let (doThis, st) ← readStatement pc fuel st
      .ok (.whileS condition doThis, st)
    | "do" => do
      let (body, st) ← readStatement pc fuel st
      let (_, st) ← st.reqTok pc (.str "while")
      let (_, st) ← st.reqTok pc (.str "(")
      let (cond0, st) ← readExpressionP pc 0 fuel st
      let condition := booleanify cond0
      let (_, st) ← st.reqTok pc (.str ")")
      let (_, st) ← st.reqTok pc (.str ";")
      .ok (.doS body condition, st)
    | "return" => do
      let st ←
        match st.tryTok (.str "(") with
        | (none, st) => Except.ok st
        | (some _, st) => do
          let (_, st) ← st.reqTok pc (.str ")")
          Except.ok st
      let (_, st) ← st.reqTok pc (.str ";")
      .ok (.call "return" [], st)
    | "goto" => do
      let (paren, st) :=
        match st.tryTok (.str "(") with
        | (none, st) => (false, st)
        | (some _, st) => (true, st)
      let (t, st) ← st.reqTok pc (.test isKeywordToken)
      let (label, st) ← readDotName pc fuel t.token st
      let st ←
        if paren then do
          let (_, st) ← st.reqTok pc (.str ")")
          Except.ok st
        else Except.ok st
      let (_, st) ← st.reqTok pc (.str ";")
      .ok (.goto label, st)
    | "\x7b" => do
      let (body, st) ← readStatementList pc fuel [] st
      .ok (.block body, st)
    | ";" => .ok (.empty, st)
    | "*" => do
      let (varRef, st) ← st.reqTok pc (.test varTest)
      let (_, st) ← st.reqTok pc (.str "=")
      let (rhs, st) ← readExpressionP pc 0 fuel st
      let (_, st) ← st.reqTok pc (.str ";")
      match rhs with
      | .uint8 m v =>
        if m == "variable" then
          .ok (.call "lindirectv"
            [.uint8 "variable" (digitsValue (varRef.token.drop 1)),
             .uint8 m v], st)
        else if m == "number" then
          .ok (.call "lindirectn"
            [.uint8 "variable" (digitsValue (varRef.token.drop 1)),
             .uint8 m v], st)
        else do
          let (t2, _) ← st.reqTok pc .any
          .error (lineErr t2.line ("invalid indirect variable assignment:" ++
            " value must be a number literal or another variable"))
      | _ => do
        let (t2, _) ← st.reqTok pc .any
        .error (lineErr t2.line ("invalid indirect variable assignment:" ++
          " value must be a number literal or another variable"))
    | _ =>
      if varTest token then do
        let varRef := Expression.uint8 "variable" (digitsValue (token.drop 1))
        match st.tryTok (.test crementTest) with
        | (some crement, st) => do
          let (_, st) ← st.reqTok pc (.str ";")
          .ok (.call (if crement.token == "++" then "increment"
            else "decrement") [varRef], st)
        | (none, st) =>
          match st.tryTok (.test assignTest) with
          | (some assignToken, st) => do
            let (rhs, st) ← readExpressionP pc 0 fuel st
            let (_, st) ← st.reqTok pc (.str ";")
            match rhs with
            | .uint8 m v =>
              if assignToken.token == "=" then
                if m == "number" then
                  .ok (.call "assignn" [varRef, .uint8 m v], st)
                else if m == "variable" then
                  .ok (.call "assignv" [varRef, .uint8 m v], st)
                else if m == "variable-value" then
                  .ok (.call "rindirect" [varRef, .uint8 "variable" v], st)
                else .error (lineErr assignToken.line "invalid assignment")
              else
                let funcBase :=
                  if assignToken.token == "+=" then "add"
                  else if assignToken.token == "-=" then "sub"
                  else if assignToken.token == "*=" then "mul."
                  else "div."
                if m == "number" then
                  .ok (.call (funcBase ++ "n") [varRef, .uint8 m v], st)
                else if m == "variable" then
                  .ok (.call (funcBase ++ "v") [varRef, .uint8 m v], st)
                else .error (lineErr assignToken.line "invalid assignment")
            | _ => .error (lineErr assignToken.line "invalid assignment")
          | (none, st) => do
            let (t2, _) ← st.reqTok pc .any
            .error (lineErr t2.line "unexpected content")
      else if flagTest token then do
        let (_, st) ← st.reqTok pc (.str "=")
        let (rhs, st) ← readExpressionP pc 0 fuel st
        let (_, st) ← st.reqTok pc (.str ";")
        let flagValue := digitsValue (token.drop 1)
        let toggled : Bool :=
          match rhs with
          | .not (.uint8 m v) => m == "flag" && v == flagValue
          | _ => false
        if toggled then
          match rhs with
          | .not operand => .ok (.call "toggle" [operand], st)
          | _ => .error (.plain "unreachable")
        else
          let flag := Expression.uint8 "flag" flagValue
          match rhs with
          | .uint8 m v =>
            if m == "number" then
              .ok (.call (if v != 0 then "set" else "reset") [flag], st)
            else
              .ok (.ifS (.uint8 m v) (.call "set" [flag])
                (some (.call "reset" [flag])), st)
          | rhs =>
            .ok (.ifS rhs (.call "set" [flag])
              (some (.call "reset" [flag])), st)
      else if ¬ isKeywordToken token then
        .error (lineErr line "unexpected content")
      else do
        let (func, st) ← readDotName pc fuel token st
        match st.tryTok (.str ":") with
        | (some _, st) => .ok (.label func, st)
        | (none, st) => do
          let (_, st) ← st.reqTok pc (.str "(")
          let (params, st) ←
            match st.tryTok (.str ")") with
            | (some _, st) => Except.ok (([] : List Expression), st)
            | (none, st) => do
              let (ps, st) ← readCallParams pc fuel [] st
              let (_, st) ← st.reqTok pc (.str ")")
              Except.ok (ps, st)
          let (_, st) ← st.reqTok pc (.str ";")
          match alGet pc.ctx.actionCommandsByName func with
          | none => .error (lineErr line ("unknown function: " ++ func ++ "()"))
          | some cmd =>
            match cmd.params with
            | .vararg => .ok (.call func params, st)
            | .fixed kinds =>
              if params.length ≠ kinds.length then
                .error (lineErr line ("wrong number of parameters for " ++
                  func ++ "() - expected " ++ toString kinds.length ++
                  ", got " ++ toString params.length))
              else do
                let (params, st) ← fixActionParams line func kinds params 0 st
                .ok (.call func params, st)
termination_by structural fuel

def readStatementList (pc : PCtx) (fuel : Nat) (acc : List Statement)
    (st : ParseState) :
    Except CompErr (List Statement × ParseState) :=
  match fuel with
  | 0 => .error .fuel
  | fuel + 1 =>
    match st.tryTok (.str "\x7d") with
    | (some _, st) => .ok (acc, st)
    | (none, st) => do
      let (s, st) ← readStatement pc fuel st
      readStatementList pc fuel (acc ++ [s]) st
termination_by structural fuel

def readCallParams (pc : PCtx) (fuel : Nat) (acc : List Expression)
    (st : ParseState) :
    Except CompErr (List Expression × ParseState) :=
  match fuel with
  | 0 => .error .fuel
  | fuel + 1 => do
    let (e, st) ← readExpressionP pc 0 fuel st
    match st.tryTok (.str ",") with
    | (none, st) => .ok (acc ++ [e], st)
    | (some _, st) => readCallParams pc fuel (acc ++ [e]) st
termination_by structural fuel

def readExpressionP (pc : PCtx) (level : Nat) (fuel : Nat)
    (st : ParseState) :
    Except CompErr (Expression × ParseState) :=
  match fuel with
  | 0 => .error .fuel
  | fuel + 1 => do
    let (e, st) ← readAtomExpression pc fuel st
    extendExpression pc level fuel e st
termination_by structural fuel

def readAtomExpression (pc : PCtx) (fuel : Nat) (st : ParseState) :
    Except CompErr (Expression × ParseState) :=
  match fuel with
  | 0 => .error .fuel
  | fuel + 1 => do
    let (tk, st) ← st.reqTok pc .any
    let token := tk.token
    let line := tk.line
    if isKeywordToken token then
      if anyValueTest token then
        if (match token.data with
            | 'w' :: _ => true
            | _ => false : Bool) then
          .ok (.uint16 "word" (digitsValue (token.drop 1)), st)
        else
          .ok (.uint8 (uint8TypeFor (token.data.headD ' '))
            (digitsValue (token.drop 1)), st)
      else do
        let (func, st) ← readDotName pc fuel token st
        match st.tryTok (.str "(") with
        | (none, _) =>
          if alHas pc.ctx.testCommandsByName func then
            .error (lineErr line ("invalid use of function " ++ func ++ "()"))
          else
            .error (lineErr line ("unknown value: " ++ func))
        | (some _, st) => do
          let (params, st) ←
            match st.tryTok (.str ")") with
            | (some _, st) => Except.ok (([] : List Expression), st)
            | (none, st) => do
              let (ps, st) ← readCallParams pc fuel [] st
              let (_, st) ← st.reqTok pc (.str ")")
              Except.ok (ps, st)
          match alGet pc.ctx.testCommandsByName func with
          | none =>
            if func == "__OR__" then .ok (.or params, st)
            else .error (lineErr line ("unknown function: " ++ func))
          | some cmd =>
            match cmd.params with
            | .vararg => do
              let params ← mapVarargWords line st.wordNumbers params
              .ok (.call func params, st)
            | .fixed kinds =>
              if params.length ≠ kinds.length then
                .error (lineErr line ("wrong number of parameters to " ++
                  func ++ "(): expected " ++ toString kinds.length ++
                  ", got " ++ toString params.length))
              else do
                let () ← checkFixedTestParams line func kinds params 0
                .ok (.call func params, st)
    else if intTest token then
      match decodeIntegerLiteral token with
      | some v => .ok (.uint8 "number" v, st)
      | none => .error .nonfinite
    else if token == "!" then do
      let (operand, st) ← readAtomExpression pc fuel st
      match operand with
      | .uint8 m v =>
        if m == "number" then
          .ok (.uint8 "number" (if v = 0 then 1 else 0), st)
        else .ok (.not (.uint8 m v), st)
      | operand => .ok (.not operand, st)
    else if token == "+" then
      readAtomExpression pc fuel st
    else if token == "-" then
      .error (lineErr line "negative values are not supported")
    else if token == "*" then do
      let (indirect, st) ← readAtomExpression pc fuel st
      match indirect with
      | .uint8 m v =>
        if m == "variable" then .ok (.uint8 "variable-value" v, st)
        else .error (lineErr line "invalid indirect value access")
      | _ => .error (lineErr line "invalid indirect value access")
    else if token == "(" then do
      let (e, st) ← readExpressionP pc 0 fuel st
      let (_, st) ← st.reqTok pc (.str ")")
      .ok (e, st)
    else if isStringLiteralToken token then do
      let (lit, st) ← readStringConcat fuel token st
      .ok (.literal lit, st)
    else
      .error (lineErr line "unexpected content")
termination_by structural fuel

def extendExpression (pc : PCtx) (level : Nat) (fuel : Nat)
    (base : Expression) (st : ParseState) :
    Except CompErr (Expression × ParseState) :=
  match fuel with
  | 0 => .error .fuel
  | fuel + 1 =>
    match st.tryTok (.test opTokenTest) with
    | (none, st) => .ok (base, st)
    | (some op, st) => extendLoop pc level fuel base op st
termination_by structural fuel

/-- One `op = tryToken(...)`; `while (op)` turn: loop exit pushes the last
token back (`repeatToken = true` after the loop, line 1508). -/
def extendStep (pc : PCtx) (level : Nat) (fuel : Nat) (expr : Expression)
    (st : ParseState) :
    Except CompErr (Expression × ParseState) :=
  match fuel with
  | 0 => .error .fuel
  | fuel + 1 =>
    match st.tryTok (.test opTokenTest) with
    | (none, st) => .ok (expr, st.pushback)
    | (some op, st) => extendLoop pc level fuel expr op st
termination_by structural fuel

def extendLoop (pc : PCtx) (level : Nat) (fuel : Nat) (expr : Expression)
    (op : Tok) (st : ParseState) :
    Except CompErr (Expression × ParseState) :=
  match fuel with
  | 0 => .error .fuel
  | fuel + 1 =>
    let precLt : Bool :=
      match opPrecedence op.token with
      | some p => decide (p < level)
      | none => false
    if precLt then
      .ok (expr, st.pushback)
    else
      match op.token with
      | "?" => do
        let p := (opPrecedence op.token).getD 0
        let (thenExpr, st) ← readExpressionP pc 0 fuel st
        let (_, st) ← st.reqTok pc (.str ":")
        let (elseExpr, st) ← readExpressionP pc p fuel st
        let expr :=
          match expr with
          | .uint8 m v =>
            if m == "number" then (if v != 0 then thenExpr else elseExpr)
            else .conditional (.uint8 m v) thenExpr elseExpr
          | expr => .conditional expr thenExpr elseExpr
        extendStep pc level fuel expr st
      | "||" | "&&" => do
        let p := (opPrecedence op.token).getD 0
        let (second, st) ← readExpressionP pc (p + 1) fuel st
        let (operands, st) ← readMoreOperands pc op.token (p + 1) fuel
          [expr, second] st
        match foldJuncts (op.token == "&&") operands with
        | .inl e => .ok (e, st)
        | .inr [] =>
          .ok (.uint8 "number" (if op.token == "&&" then 1 else 0), st)
        | .inr [e] => .ok (e, st)
        | .inr ops =>
          extendStep pc level fuel
            (if op.token == "||" then .or ops else .and ops) st
      | "==" | "!=" | "<" | "<=" | ">" | ">=" => do
        let p := (opPrecedence op.token).getD 0
        let (right, st) ← readExpressionP pc (p + 1) fuel st
        let expr ← lowerComparison op.line op.token expr right
        extendStep pc level fuel expr st
      | "+" | "-" | "*" | "/" => do
        let p := (opPrecedence op.token).getD 0
        let (rhs, st) ← readExpressionP pc (p + 1) fuel st
        match expr, rhs with
        | .uint8 lm lv, .uint8 rm rv =>
          if lm == "number" && rm == "number" then do
            let result ←
              match op.token with
              | "+" => Except.ok (jsAnd255 (lv + rv))
              | "-" => Except.ok (jsAnd255 (lv - rv))
              | "*" => Except.ok (jsAnd255 (toInt32 (lv * rv)))
              | _ =>
                -- `Math.floor(l / r)`: floor division, except that division
                -- by zero floats off to `Infinity`/`NaN`
                if rv = 0 then Except.error CompErr.nonfinite
                else Except.ok (Int.fdiv lv rv)
            extendStep pc level fuel (.uint8 "number" result) st
          else
            extendStep pc level fuel
              (.math op.token (.uint8 lm lv) (.uint8 rm rv)) st
        | expr, rhs => extendStep pc level fuel (.math op.token expr rhs) st
      | _ => .error (.plain ("unexpected operator: " ++ op.token))
termination_by structural fuel

def readMoreOperands (pc : PCtx) (opTok : String) (sublevel : Nat)
    (fuel : Nat) (acc : List Expression) (st : ParseState) :
    Except CompErr (List Expression × ParseState) :=
  match fuel with
  | 0 => .error .fuel
  | fuel + 1 =>
    match st.tryTok (.str opTok) with
    | (none, st) => .ok (acc, st)
    | (some _, st) => do
      let (e, st) ← readExpressionP pc sublevel fuel st
      readMoreOperands pc opTok sublevel fuel (acc ++ [e]) st
termination_by structural fuel

end

/-- The top-level statement loop (compile.ts lines 1656-1660): peek a token,
push it back, parse a statement, hoist its conditionals. -/
def readProgram (pc : PCtx) : Nat → ParseState → List Statement →
    Except CompErr (List Statement × ParseState)
  | 0, _, _ => .error .fuel
  | fuel + 1, st, acc =>
    match st.tryTok .any with
    | (none, st) => .ok (acc, st)
    | (some _, st) => do
      let (s, st) ← readStatement pc fuel st.pushback
      match hoistConditionalStatement fuel s with
      | none => .error .fuel
      | some s2 => readProgram pc fuel st (acc ++ [s2])

/-! ### The whole pipeline (compile.ts lines 561-1884)

`compileModel` is `compile` minus its file read: lex, preprocess, parse with
hoisting, ensure a trailing `return`, generate code, patch labels, and lay
out the message section.  `Buffer.from(buf)` stores each number modulo 256
(`ToUint8`). -/

structure CompileOut where
  bytecode : List Int
  messageOffsets : List Int
  messageBlock : String
  wordNumbers : List (String × Int)
deriving Repr, DecidableEq

def ParseState.fromPP (pp : PPState) (lines : List TokenLine) : ParseState :=
  ⟨⟨none, false, flattenTokens lines⟩, pp.messageNumbers, pp.messages, 1,
    pp.itemNumbers, pp.wordNumbers⟩

def compileModel (c : Ctx) (fuel : Nat) (src path : String)
    (macros : List (String × List String)) : Except CompErr CompileOut := do
  let tokenLines ← tokenize src path
  let (pp, outLines) ← preprocess fuel macros tokenLines
  let lastLine : LineRef :=
    match outLines.getLast? with
    | some l => l.ref
    | none => ⟨path, 0⟩
  let pc : PCtx := ⟨c, lastLine⟩
  let (statements, stF) ← readProgram pc fuel (ParseState.fromPP pp outLines) []
  let statements :=
    match statements.getLast? with
    | some (.call "return" _) => statements
    | _ => statements ++ [.call "return" []]
  let cg ← codegen c fuel statements
  .ok ⟨cg.buf.map (fun v => v.emod 256),
       computeMessageOffsets stF.messages,
       messageBlock stF.messages,
       stF.wordNumbers⟩

/-! ## Theorems -/

set_option maxRecDepth 2000

/-- C1.  The claim states that a word-sized (uint16) parameter of an
action-command call is emitted as `value & 0xff` followed by
`(value >> 8) & 0xff` for every value in 0..65535.  The code does not:
`pushStatement`'s uint16 case emits `(value >> 16) & 0xff` as the second byte
(compile.ts line 1802, and identically part_001 line 1402), so every
parameter value in 256..65535 loses its high byte.  At value 256 the call
emits bytes `[opcode, 0, 0]`, where the claimed little-endian encoding
requires `[opcode, 0, 1]`: the second operand byte the code computes is
`jsShr16And255 256 = 0` while the claimed one is `jsShr8And255 256 = 1`.
The sibling `pushCondition2` (test-call parameters) does use `>> 8`, which
together with the spec's "2 bytes little-endian" shows the `>> 16` to be a
slip in the code rather than intent. -/
theorem claim_C1_uint16_action_param_drops_high_byte :
    pushStatement specCtx 9 (.call "word.cmd" [.uint16 "word" 256]) CGState.init
      = .ok ⟨[17, jsAnd255 256, jsShr16And255 256], [], [], []⟩ ∧
    jsAnd255 256 = 0 ∧ jsShr16And255 256 = 0 ∧ jsShr8And255 256 = 1 ∧
    pushCondParams [] [Expression.uint16 "word" 256] = [0, 1] :=
  ⟨rfl, rfl, rfl, rfl, rfl⟩

/-- C2.  For `if (v1 > 5) { inc(v1); }`: the comparison `v1 > 5` lowers to the
un-negated `greatern` test call on operands (variable 1, number 5), and
`booleanify` leaves that call unchanged, so the parsed statement is
`ifS (call greatern [v1, 5]) (block [call inc [v1]])`.  Its emitted byte
stream is exactly: the condition delimiter 0xFF, the `greatern` opcode (5 in
the modelled command table) with operand bytes 1 and 5, the closing 0xFF, the
2-byte little-endian relative offset `[2, 0]` — whose value 2 equals the byte
length of the compiled `inc(v1)` call `[9, 1]`, as the third conjunct
witnesses — followed by that call's bytes. -/
theorem claim_C2_if_greater_byte_exact :
    lowerComparison ⟨"main", 1⟩ ">" (.uint8 "variable" 1) (.uint8 "number" 5)
      = .ok (.call "greatern" [.uint8 "variable" 1, .uint8 "number" 5]) ∧
    booleanify (.call "greatern" [.uint8 "variable" 1, .uint8 "number" 5])
      = .call "greatern" [.uint8 "variable" 1, .uint8 "number" 5] ∧
    pushStatement specCtx 9
      (.call "inc" [.uint8 "variable" 1]) CGState.init
      = .ok ⟨[9, 1], [], [], []⟩ ∧
    pushStatement specCtx 9
      (.ifS (.call "greatern" [.uint8 "variable" 1, .uint8 "number" 5])
        (.block [.call "inc" [.uint8 "variable" 1]]) none)
      CGState.init
      = .ok ⟨[0xff, 5, 1, 5, 0xff, 2, 0, 9, 1], [], [], []⟩ :=
  ⟨rfl, rfl, rfl, rfl⟩

/-- C3.  (a) A `goto done` whose label is defined `k` filler statements later
is patched, after generation completes, to the relative offset
`labelOffset - basePos` where `basePos` is the address right after the 3-byte
jump (here the label sits at `3 + 2k` and `basePos = 3`, so the two patch
bytes hold the little-endian encoding of `2k`); the goto also records exactly
one pending patch `(3, "done")`.  (b) When goto-referenced labels are never
defined, code generation raises one single error naming all of the
still-missing labels (here both `missing` and `alsomissing`), rather than
failing on only the first. -/
theorem claim_C3_goto_forward_patch_and_aggregate_error :
    (∀ k : Nat,
      codegen specCtx (k + 4)
        (.goto "done" ::
          (List.replicate k (.call "increment" [.uint8 "variable" 0]) ++
            [.label "done", .call "return" []]))
        = .ok ⟨[0xfe, jsAnd255 (2 * k), jsShr8And255 (2 * k)] ++
                 incFillBytes k ++ [0],
               [("done", 3 + 2 * k)], [], [(3, "done")]⟩) ∧
    codegen specCtx 9 [.goto "missing", .goto "alsomissing", .call "return" []]
      = .error (.plain "label target(s) not found: missing, alsomissing") := by
  constructor
  · intro k
    rw [codegen]
    have hfuel : k + 4 = 2 + k + 1 + 1 := by omega
    rw [hfuel, pushStmtList]
    have hgoto : pushStatement specCtx (2 + k + 1) (.goto "done") CGState.init
        = .ok ⟨[0xfe, 0, 0], [], ["done"], [(3, "done")]⟩ := by
      have : 2 + k + 1 = (2 + k) + 1 := rfl
      rw [this, pushStatement]; rfl
    rw [hgoto]
    simp only [Bind.bind, Except.bind]
    rw [pushStmtList_replicate_increment]
    have htail : pushStmtList specCtx 3 [.label "done", .call "return" []]
        ⟨[254, 0, 0] ++ incFillBytes k, [], ["done"], [(3, "done")]⟩
        = .ok ⟨([254, 0, 0] ++ incFillBytes k) ++ [0],
               [("done", ([254, 0, 0] ++ incFillBytes k).length)], [],
               [(3, "done")]⟩ := rfl
    rw [htail]
    simp only [Bind.bind, Except.bind]
    rw [if_neg (by simp)]
    have hlen : ([254, 0, 0] ++ incFillBytes k : List Int).length = 3 + 2 * k := by
      simp [incFillBytes_length]; omega
    have hrel : ((3 + 2 * k : Nat) : Int) - 3 = 2 * (k : Int) := by push_cast; ring
    simp only [applyPatches, alGet, List.find?, hlen]
    norm_num [patchRel, hrel, List.set_append, incFillBytes_length,
      List.append_assoc]
  · rfl

/-- C9.  In the directive expression evaluator, for all operand values the
binary operators `+`, `-`, `*`, `/` and `%` produce the 32-bit signed
two's-complement wrap of the exact result: each result lies in
[-2^31, 2^31) and is congruent modulo 2^32 to the exact sum, difference,
product, quotient truncated toward zero, or remainder with the dividend's
sign (the source coerces `+`, `-`, `/`, `%` with `| 0` and multiplies with
`Math.imul`).  Division and remainder take a non-zero right operand; at zero
JS produces `Infinity`/`NaN`, which `| 0` sends to 0. -/
theorem claim_C9_evaluator_arith_wraps_int32 (a b : Int) :
    (inRange32 (evalBinaryOp "+" a b) ∧
      (4294967296 : Int) ∣ (evalBinaryOp "+" a b - (a + b))) ∧
    (inRange32 (evalBinaryOp "-" a b) ∧
      (4294967296 : Int) ∣ (evalBinaryOp "-" a b - (a - b))) ∧
    (inRange32 (evalBinaryOp "*" a b) ∧
      (4294967296 : Int) ∣ (evalBinaryOp "*" a b - a * b)) ∧
    (b ≠ 0 → inRange32 (evalBinaryOp "/" a b) ∧
      (4294967296 : Int) ∣ (evalBinaryOp "/" a b - Int.tdiv a b)) ∧
    (b ≠ 0 → inRange32 (evalBinaryOp "%" a b) ∧
      (4294967296 : Int) ∣ (evalBinaryOp "%" a b - Int.tmod a b)) := by
  refine ⟨?_, ?_, ?_, ?_, ?_⟩
  · exact toInt32_spec (a + b)
  · exact toInt32_spec (a - b)
  · exact toInt32_spec (a * b)
  · intro hb
    have h : evalBinaryOp "/" a b = toInt32 (Int.tdiv a b) := by
      show jsDivOr0 a b = _
      rw [jsDivOr0, if_neg hb]
    rw [h]
    exact toInt32_spec (Int.tdiv a b)
  · intro hb
    have h : evalBinaryOp "%" a b = toInt32 (Int.tmod a b) := by
      show jsModOr0 a b = _
      rw [jsModOr0, if_neg hb]
    rw [h]
    exact toInt32_spec (Int.tmod a b)

/-- Witness for C9 at a concrete overflowing input: `2147483647 + 1` wraps,
and `-7 / 2` truncates toward zero with a non-zero divisor discharged
concretely. -/
theorem claim_C9_evaluator_arith_wraps_int32_witness :
    ((inRange32 (evalBinaryOp "+" 2147483647 1) ∧
      (4294967296 : Int) ∣ (evalBinaryOp "+" 2147483647 1 - (2147483647 + 1)))
      ∧ (inRange32 (evalBinaryOp "/" (-7) 2) ∧
        (4294967296 : Int) ∣ (evalBinaryOp "/" (-7) 2 - Int.tdiv (-7) 2))) ∧
    evalBinaryOp "+" 2147483647 1 = -2147483648 ∧
    evalBinaryOp "/" (-7) 2 = -3 :=
  ⟨⟨(claim_C9_evaluator_arith_wraps_int32 2147483647 1).1,
    (claim_C9_evaluator_arith_wraps_int32 (-7) 2).2.2.2.1 (by decide)⟩,
   by decide, by decide⟩

/-- C4.  Preprocessing exactly `#message 1 "hi"` and `#message 3 "bye"`
records the sparse message array `[none, "hi", none, "bye"]`; the assembler
then produces the offsets table `[-1, 0, -1, 3]` (−1 for the absent slots 0
and 2; "bye" starts after the 2 bytes of "hi" plus its terminator) and the
message block `"hi\0bye\0"`. -/
theorem claim_C4_message_table_layout :
    (preprocess 99 [] [mkLine ["#", "message", "1", "\"hi\""] 1,
        mkLine ["#", "message", "3", "\"bye\""] 2]).map
      (fun r => (r.1.messages, computeMessageOffsets r.1.messages,
        messageBlock r.1.messages))
    = .ok ([none, some "hi", none, some "bye"],
           [-1, 0, -1, 3], "hi\x00bye\x00") := by decide

/-- C6.  The conditional-stack discipline: (1) a well-formed `#else` line is
rejected with the unmatched error whenever the stack is empty or its top
frame already recorded an `#else`; (2) so is a well-formed `#elif`; (3) an
`#endif` with an empty stack is rejected with the unmatched-`#endif` error;
(4) when the line loop finishes with a non-empty stack, preprocessing fails
naming the location of the unmatched opening directive (`ifStack[0]`, the
bottom frame). -/
theorem claim_C6_conditional_stack_invariants :
    (∀ (fuel : Nat) (st : PPState) (l : TokenLine) (r : List TokenLine),
      l.tokens = ["#", "else"] → elseIsUnmatched st.ifStack →
      ppLoop (fuel + 1) st (l :: r)
        = .error (lineErr l.ref "unmatched #else directive")) ∧
    (∀ (fuel : Nat) (st : PPState) (l : TokenLine) (r : List TokenLine)
      (et : List String),
      l.tokens = "#" :: "elif" :: et → et ≠ [] → elseIsUnmatched st.ifStack →
      ppLoop (fuel + 1) st (l :: r)
        = .error (lineErr l.ref "unmatched #elif directive")) ∧
    (∀ (fuel : Nat) (st : PPState) (l : TokenLine) (r : List TokenLine),
      l.tokens = ["#", "endif"] → st.ifStack = [] →
      ppLoop (fuel + 1) st (l :: r)
        = .error (lineErr l.ref "unmatched #endif directive")) ∧
    (∀ (fuel : Nat) (macros : List (String × List String))
      (lines outLines : List TokenLine) (st : PPState) (frame : IfFrame),
      ppLoop fuel (PPState.initial macros) lines = .ok (st, outLines) →
      st.ifStack.getLast? = some frame →
      preprocess fuel macros lines
        = .error (lineErr frame.ifLine "unmatched #if")) := by
  refine ⟨?_, ?_, ?_, ?_⟩
  · intro fuel st l r htok hblock
    unfold elseIsUnmatched at hblock
    match hst : st.ifStack with
    | [] => simp [ppLoop, htok, hst]
    | top :: lower =>
      rw [hst] at hblock
      simp [ppLoop, htok, hst, hblock]
  · intro fuel st l r et htok hne hblock
    unfold elseIsUnmatched at hblock
    have hlen : ¬ (et.length + 1 + 1 < 3) := by
      have := List.length_pos.mpr hne; omega
    match hst : st.ifStack with
    | [] => simp [ppLoop, htok, hst, hlen]
    | top :: lower =>
      rw [hst] at hblock
      simp [ppLoop, htok, hst, hblock, hlen]
  · intro fuel st l r htok hst
    simp [ppLoop, htok, hst]
  · intro fuel macros lines outLines st frame hok hlast
    rw [preprocess, hok]
    simp [Bind.bind, Except.bind, hlast]

/-- Witness for C6: each conjunct applied at a concrete input — an `#else`
with an empty stack, an `#elif` after a recorded `#else` on the top frame,
an `#endif` with an empty stack, and a lone unclosed `#if 1`. -/
theorem claim_C6_conditional_stack_invariants_witness :
    (ppLoop 9 (PPState.initial []) [mkLine ["#", "else"] 1]
      = .error (.line "main" 1 "unmatched #else directive")) ∧
    (ppLoop 9 ⟨[], [⟨⟨"main", 1⟩, some ⟨"main", 2⟩⟩], [], [none], [], []⟩
        [mkLine ["#", "elif", "1"] 3]
      = .error (.line "main" 3 "unmatched #elif directive")) ∧
    (ppLoop 9 (PPState.initial []) [mkLine ["#", "endif"] 1]
      = .error (.line "main" 1 "unmatched #endif directive")) ∧
    (preprocess 9 [] [mkLine ["#", "if", "1"] 1]
      = .error (.line "main" 1 "unmatched #if")) := by
  refine ⟨?_, ?_, ?_, ?_⟩
  · exact claim_C6_conditional_stack_invariants.1 8 _ _ _ rfl trivial
  · exact claim_C6_conditional_stack_invariants.2.1 8 _ _ _ ["1"] rfl
      (by decide) rfl
  · exact claim_C6_conditional_stack_invariants.2.2.1 8 _ _ _ rfl rfl
  · exact claim_C6_conditional_stack_invariants.2.2.2 9 []
      [mkLine ["#", "if", "1"] 1] [mkLine [] 1]
      ⟨[], [⟨⟨"main", 1⟩, none⟩], [], [none], [], []⟩ ⟨⟨"main", 1⟩, none⟩
      (by decide) rfl

/-- Helper for the C5 counterexample: with the table `X -> [X]`, the scan
from the line `[X]` at position 0 reproduces its own state forever, so it
runs out of any amount of fuel. -/
theorem expandTokens_self_macro_loops (n : Nat) :
    expandTokens [("X", ["X"])] n ["X"] 0 = .error CompErr.fuel := by
  induction n with
  | zero => rfl
  | succ n ih =>
    show expandTokens [("X", ["X"])] (n + 1) ["X"] 0 = _
    simpa [expandTokens, alHas, alGet] using ih

/-- C5, counterexample.  The claim says the in-place macro substitution scan
terminates for every macro table; the table defining `X` as `X` refutes it:
the scan re-examines the freshly substituted token at the same position
(`i--; continue`), so no amount of fuel lets it finish the line `X`. -/
theorem claim_C5_counterexample_self_macro_scan_diverges :
    ¬ ∃ n res, expandTokens [("X", ["X"])] n ["X"] 0 = .ok res := by
  rintro ⟨n, res, h⟩
  rw [expandTokens_self_macro_loops n] at h
  cases h

/-- C5, amended.  For every single-level macro table — one in which no
replacement token is itself a defined macro name — and every token line, the
in-place left-to-right substitution scan terminates: each substitution
removes one macro occurrence and introduces none, and every other step
advances.  (The unamended claim is false: a macro whose replacement list
contains its own name is re-expanded at the same scan position forever, see
the counterexample.) -/
theorem claim_C5_flat_macro_scan_terminates
    (macros : List (String × List String)) (tokens : List String)
    (hflat : macroFlat macros) :
    ∃ n res, expandTokens macros n tokens 0 = .ok res :=
  expandTokens_terminates_aux (mcount macros tokens 0) macros hflat
    tokens.length tokens 0 le_rfl (by omega)

/-- Witness for C5 at a concrete single-level table and line. -/
theorem claim_C5_flat_macro_scan_terminates_witness :
    ∃ n res,
      expandTokens [("A", ["1", "2"])] n ["x", "A", "y", "A"] 0 = .ok res :=
  claim_C5_flat_macro_scan_terminates [("A", ["1", "2"])]
    ["x", "A", "y", "A"] (by unfold macroFlat; decide)

/-- C7.  For every parsed comparison between a variable and a number or
another variable: when the number literal is on the left the operands are
swapped and the operator replaced by its mirror-inverse (`SWAP_COMPARATOR`);
`<=`, `>=` and `!=` then lower to a `Not` node wrapping the negated (`>`,
`<`, `==`) primitive test call, while `<`, `>`, `==` lower to the un-negated
call; the call name takes suffix `n` when the right operand is a number and
`v` when it is a variable, and the variable operand always comes first.  All
eighteen operator/operand-shape combinations are enumerated. -/
theorem claim_C7_comparison_swap_and_negate_lowering
    (line : LineRef) (i j n : Int) :
    lowerComparison line "<" (.uint8 "variable" i) (.uint8 "number" n)
      = .ok (.call "lessn" [.uint8 "variable" i, .uint8 "number" n]) ∧
    lowerComparison line ">" (.uint8 "variable" i) (.uint8 "number" n)
      = .ok (.call "greatern" [.uint8 "variable" i, .uint8 "number" n]) ∧
    lowerComparison line "==" (.uint8 "variable" i) (.uint8 "number" n)
      = .ok (.call "equaln" [.uint8 "variable" i, .uint8 "number" n]) ∧
    lowerComparison line "<=" (.uint8 "variable" i) (.uint8 "number" n)
      = .ok (.not (.call "greatern" [.uint8 "variable" i, .uint8 "number" n])) ∧
    lowerComparison line ">=" (.uint8 "variable" i) (.uint8 "number" n)
      = .ok (.not (.call "lessn" [.uint8 "variable" i, .uint8 "number" n])) ∧
    lowerComparison line "!=" (.uint8 "variable" i) (.uint8 "number" n)
      = .ok (.not (.call "equaln" [.uint8 "variable" i, .uint8 "number" n])) ∧
    lowerComparison line "<" (.uint8 "number" n) (.uint8 "variable" i)
      = .ok (.call "greatern" [.uint8 "variable" i, .uint8 "number" n]) ∧
    lowerComparison line ">" (.uint8 "number" n) (.uint8 "variable" i)
      = .ok (.call "lessn" [.uint8 "variable" i, .uint8 "number" n]) ∧
    lowerComparison line "==" (.uint8 "number" n) (.uint8 "variable" i)
      = .ok (.call "equaln" [.uint8 "variable" i, .uint8 "number" n]) ∧
    lowerComparison line "<=" (.uint8 "number" n) (.uint8 "variable" i)
      = .ok (.not (.call "lessn" [.uint8 "variable" i, .uint8 "number" n])) ∧
    lowerComparison line ">=" (.uint8 "number" n) (.uint8 "variable" i)
      = .ok (.not (.call "greatern" [.uint8 "variable" i, .uint8 "number" n])) ∧
    lowerComparison line "!=" (.uint8 "number" n) (.uint8 "variable" i)
      = .ok (.not (.call "equaln" [.uint8 "variable" i, .uint8 "number" n])) ∧
    lowerComparison line "<" (.uint8 "variable" i) (.uint8 "variable" j)
      = .ok (.call "lessv" [.uint8 "variable" i, .uint8 "variable" j]) ∧
    lowerComparison line ">" (.uint8 "variable" i) (.uint8 "variable" j)
      = .ok (.call "greaterv" [.uint8 "variable" i, .uint8 "variable" j]) ∧
    lowerComparison line "==" (.uint8 "variable" i) (.uint8 "variable" j)
      = .ok (.call "equalv" [.uint8 "variable" i, .uint8 "variable" j]) ∧
    lowerComparison line "<=" (.uint8 "variable" i) (.uint8 "variable" j)
      = .ok (.not (.call "greaterv" [.uint8 "variable" i, .uint8 "variable" j])) ∧
    lowerComparison line ">=" (.uint8 "variable" i) (.uint8 "variable" j)
      = .ok (.not (.call "lessv" [.uint8 "variable" i, .uint8 "variable" j])) ∧
    lowerComparison line "!=" (.uint8 "variable" i) (.uint8 "variable" j)
      = .ok (.not (.call "equalv" [.uint8 "variable" i, .uint8 "variable" j])) :=
  ⟨rfl, rfl, rfl, rfl, rfl, rfl, rfl, rfl, rfl, rfl, rfl, rfl, rfl, rfl, rfl, rfl, rfl, rfl⟩

set_option maxHeartbeats 800000 in
/-- C8.  The claim states that after `hoistConditionalStatement` no
`conditional` node remains below the top of any parsed statement, so the
condition emitter never meets one.  The code diverges twice.  First, the
ternary grammar itself is dead: the parser operator test
`/^[\+\-\*\/]|[<>]=?|[!=]=|\|\||&&$/` does not match `?` (fourth
conjunct), so `extendExpression` never reaches its `case` that builds
`conditional` nodes and any source ternary is a syntax error (fifth
conjunct: `v1 = f1 ? 1 : 2;` dies with `expected ;, got ?`), though the
spec's extended grammar promises the form.  Second, the pass itself breaks
its contract on the ASTs it was written for: for a call statement whose
argument is a ternary with a ternary condition, the pass floats the outer
ternary into an `if` whose condition is `hoisted.condition` itself,
unflattened; the inner ternary survives there (first and second conjuncts),
and the code generator's `pushCondition2` raises its "unexpected condition
type: conditional" internal-invariant error on it (third conjunct). -/
theorem claim_C8_hoisting_leaves_ternary_condition :
    hoistConditionalStatement 99
      (.call "print"
        [.conditional
          (.conditional (.uint8 "flag" 1) (.uint8 "number" 2)
            (.uint8 "number" 3))
          (.uint8 "number" 4) (.uint8 "number" 5)])
      = some (.ifS
          (.conditional (.uint8 "flag" 1) (.uint8 "number" 2)
            (.uint8 "number" 3))
          (.call "print" [.uint8 "number" 4])
          (some (.call "print" [.uint8 "number" 5]))) ∧
    Statement.hasConditional
      (.ifS
        (.conditional (.uint8 "flag" 1) (.uint8 "number" 2)
          (.uint8 "number" 3))
        (.call "print" [.uint8 "number" 4])
        (some (.call "print" [.uint8 "number" 5]))) = true ∧
    pushStatement specCtx 9
      (.ifS
        (.conditional (.uint8 "flag" 1) (.uint8 "number" 2)
          (.uint8 "number" 3))
        (.call "print" [.uint8 "number" 4])
        (some (.call "print" [.uint8 "number" 5])))
      CGState.init
      = .error (.plain "unexpected condition type: conditional") ∧
    opTokenTest "?" = false ∧
    compileModel specCtx 99 "v1 = f1 ? 1 : 2;" "p" []
      = .error (.line "p" 1 "expected ;, got ?") :=
  ⟨rfl, rfl, rfl, rfl, by decide⟩

/-- C10.  Two-run determinism of the compile pipeline: compiling the same
source text twice, each run starting from a fresh macro table (the message,
word and item tables are built afresh inside `compileModel` from the source
alone), yields byte-identical bytecode, identical message-offset tables and
identical message blocks. -/
theorem claim_C10_compile_determinism (c : Ctx) (fuel : Nat)
    (src path : String) (macros1 macros2 : List (String × List String))
    (out1 out2 : CompileOut)
    (hm1 : macros1 = []) (hm2 : macros2 = [])
    (h1 : compileModel c fuel src path macros1 = .ok out1)
    (h2 : compileModel c fuel src path macros2 = .ok out2) :
    out1.bytecode = out2.bytecode ∧
    out1.messageOffsets = out2.messageOffsets ∧
    out1.messageBlock = out2.messageBlock := by
  subst hm1
  subst hm2
  rw [h1] at h2
  injection h2 with h
  subst h
  exact ⟨rfl, rfl, rfl⟩

set_option maxHeartbeats 800000 in
theorem claim_C10_compile_determinism_witness :
    compileModel specCtx 99 "v1 = v2;" "p" []
      = .ok ⟨[4, 1, 2, 0], [-1], "\x00", []⟩ ∧
    ([4, 1, 2, 0] : List Int) = [4, 1, 2, 0] ∧
    ([-1] : List Int) = [-1] ∧ ("\x00" : String) = "\x00" := by
  have h : compileModel specCtx 99 "v1 = v2;" "p" []
      = .ok ⟨[4, 1, 2, 0], [-1], "\x00", []⟩ := by decide
  have hd := claim_C10_compile_determinism specCtx 99
    "v1 = v2;" "p" [] [] _ _ rfl rfl h h
  exact ⟨h, hd.1, hd.2.1, hd.2.2⟩

end Agi
